import Mathlib

/-!
Peggy confirmation commitments (`orchestrator/ethereum/peggy/message_signatures.go`)

A shallow embedding of `EncodeValsetConfirm` and `EncodeTxBatchConfirm`.

* A Go `[]byte`, `[N]byte` or `string` is a `List Nat` of byte values.
* A Go `uint64` is a `Nat` (the machine width is made explicit where the
  source converts it: `int64 x`).
* A `*big.Int` is an `Option Int`; `none` is the nil pointer.
* `crypto.Keccak256` is a parameter `keccak : List Nat → Hash`; nothing is
  assumed about it.
* The go-ethereum routines the two builders call (`common.HexToAddress`,
  `abi.ABI.Pack`) are embedded from the library source, restricted to the ABI
  types that occur in the two interface descriptions of the source file. The
  packer `Pack` is the one of the go-ethereum releases up to v1.15: `packNum`
  writes a `*big.Int` with `math.U256Bytes` and checks neither its sign nor its
  size. The release the repository builds against is not recorded in the source
  files, so the packer from v1.16.0 on, which rejects a negative `*big.Int` for
  a `uint` type, is embedded beside it as `PackStrict`; where the two differ the
  theorems speak of both.
* The two interface descriptions are embedded in parsed form; parsing the
  constant JSON texts cannot fail. Pointer fields of the protobuf types
  (`Members[i]`, `Erc20Token`, `Erc20Fee`) are taken to be non-nil.
-/

namespace Peggy

/-! ## Bytes, hashes, addresses (`go-ethereum/common`) -/

/-- Bytes of an ASCII string literal, as Go's `[]uint8("...")` yields them. -/
def ascii (s : String) : List Nat := s.toList.map Char.toNat

/-- Go's `var a [n]uint8; copy(a[:], src)`: the first `n` bytes of `src`,
the rest of the array keeps its zero value. -/
def copyInto (n : Nat) (src : List Nat) : List Nat :=
  src.take n ++ List.replicate (n - src.length) 0

/-- The 32-byte array `common.Hash`. -/
structure Hash where
  bytes : List Nat
  len : bytes.length = 32

instance : DecidableEq Hash := fun a b =>
  match a, b with
  | ⟨x, hx⟩, ⟨y, hy⟩ =>
    if h : x = y then isTrue (by subst h; rfl)
    else isFalse (fun e => h (congrArg Hash.bytes e))

/-- The zero value `ethcmn.Hash{}`. -/
def Hash.zero : Hash := ⟨List.replicate 32 0, by simp⟩

/-- Bytes kept by `SetBytes` for an `n`-byte array: if `b` is longer than the
array it is cropped from the left, then copied right-aligned. -/
def setBytes (n : Nat) (b : List Nat) : List Nat :=
  let b := if b.length > n then b.drop (b.length - n) else b
  List.replicate (n - b.length) 0 ++ b

/-- The function `common.BytesToHash`. -/
def BytesToHash (b : List Nat) : Hash :=
  ⟨setBytes 32 b, by unfold setBytes; split <;> simp <;> omega⟩

/-- The function `common.BytesToAddress`: a 20-byte array. -/
def BytesToAddress (b : List Nat) : List Nat := setBytes 20 b

/-- The function `has0xPrefix` of `common/bytes.go`. -/
def has0xPrefix (str : List Nat) : Bool :=
  match str with
  | c0 :: c1 :: _ => c0 == 48 && (c1 == 120 || c1 == 88)
  | _ => false

/-- Value of a hexadecimal digit (`encoding/hex`), `none` for any other byte. -/
def fromHexChar (c : Nat) : Option Nat :=
  if 48 ≤ c ∧ c ≤ 57 then some (c - 48)
  else if 97 ≤ c ∧ c ≤ 102 then some (c - 97 + 10)
  else if 65 ≤ c ∧ c ≤ 70 then some (c - 65 + 10)
  else none

/-- The function `Hex2Bytes`: `hex.DecodeString` with its error dropped, which leaves the
bytes decoded before the first invalid character (or dangling digit). -/
def Hex2Bytes : List Nat → List Nat
  | p :: q :: rest =>
    match fromHexChar p, fromHexChar q with
    | some a, some b => (a * 16 + b) :: Hex2Bytes rest
    | _, _ => []
  | _ => []

/-- The function `common.FromHex`. -/
def FromHex (s : List Nat) : List Nat :=
  let s := if has0xPrefix s then s.drop 2 else s
  let s := if s.length % 2 == 1 then 48 :: s else s
  Hex2Bytes s

/-- The function `common.HexToAddress`. -/
def HexToAddress (s : List Nat) : List Nat := BytesToAddress (FromHex s)

/-! ## Integers -/

/-- Go's conversion `int64(x)` of a `uint64`: the same 64 bits read as a
two's-complement number. -/
def int64 (x : Nat) : Int :=
  if x % 2 ^ 64 < 2 ^ 63 then ((x % 2 ^ 64 : Nat) : Int) else ((x % 2 ^ 64 : Nat) : Int) - 2 ^ 64

/-- The word `math.PaddedBigBytes n 32` for `0 ≤ n < 2^256`: 32 bytes, big-endian. -/
def wordBE (n : Nat) : List Nat :=
  (List.range 32).map (fun i => n / 256 ^ (31 - i) % 256)

/-- The function `math.U256Bytes`: the number is first reduced with `x.And(x, 2^256 - 1)`
(two's complement for a negative `x`), then written as a 32-byte word. -/
def U256Bytes (x : Int) : List Nat := wordBE (x % 2 ^ 256).toNat

/-- The function `common.LeftPadBytes slice l`. -/
def LeftPadBytes (slice : List Nat) (l : Nat) : List Nat :=
  if l ≤ slice.length then slice else List.replicate (l - slice.length) 0 ++ slice

/-- The function `common.RightPadBytes slice l`. -/
def RightPadBytes (slice : List Nat) (l : Nat) : List Nat :=
  if l ≤ slice.length then slice else slice ++ List.replicate (l - slice.length) 0

/-! ## ABI packing (`go-ethereum/accounts/abi`) -/

/-- The ABI types of the two interface descriptions. -/
inductive AbiType where
  | FixedBytesTy (size : Nat)
  | UintTy (size : Nat)
  | AddressTy
  | SliceTy (elem : AbiType)
  deriving DecidableEq, Repr

/-- The `reflect.Kind` of the Go values involved. -/
inductive Kind where
  | Array | Ptr | Slice
  deriving DecidableEq, Repr

/-- The Go values handed to `Pack`. -/
inductive GoValue where
  /-- An `[N]byte`: `common.Hash`, `[32]uint8`, `common.Address` -/
  | byteArray (bs : List Nat)
  /-- A `*big.Int` -/
  | bigInt (v : Option Int)
  /-- A `[]common.Address` -/
  | addressSlice (elems : List (List Nat))
  /-- A `[]*big.Int` -/
  | bigIntSlice (elems : List (Option Int))
  deriving DecidableEq, Repr

/-- Outcome of a packing call: the bytes, a returned `error`, or a run-time
panic inside the library (reflection on a nil `*big.Int`). The texts of the
count, lookup and sign errors are the library's; the text of a type error is
abridged. -/
inductive PackResult where
  | ok (bytes : List Nat)
  | error (msg : String)
  | panic
  deriving DecidableEq, Repr

/-- The byte slice a packing call returns: nil unless it succeeded. -/
def PackResult.bytes : PackResult → List Nat
  | .ok bytes => bytes
  | _ => []

/-- The method `Type.String()`, as used in the method signature. -/
def AbiType.String : AbiType → String
  | .FixedBytesTy n => "bytes" ++ toString n
  | .UintTy n => "uint" ++ toString n
  | .AddressTy => "address"
  | .SliceTy e => e.String ++ "[]"

/-- Kind of `Type.GetType()`. -/
def AbiType.kind : AbiType → Kind
  | .FixedBytesTy _ => .Array
  | .UintTy _ => .Ptr
  | .AddressTy => .Array
  | .SliceTy _ => .Slice

/-- The function `isDynamicType`. -/
def isDynamicType : AbiType → Bool
  | .SliceTy _ => true
  | _ => false

/-- The function `getTypeSize`: every type here takes one 32-byte head word. -/
def getTypeSize (_t : AbiType) : Nat := 32

/-- The function `packNum` on a Go `int` (an offset or a length). -/
def packNum (n : Nat) : List Nat := U256Bytes (n : Int)

/-- The method `Type.pack` on a value that is not a slice: `indirect` (which panics on a
nil `*big.Int`), `typeCheck`, then `packElement`. -/
def packElem (t : AbiType) (v : GoValue) : PackResult :=
  match v with
  | .bigInt none => .panic
  | .bigInt (some x) =>
    match t with
    | .UintTy _ => .ok (U256Bytes x)
    | _ => .error "abi: cannot use ptr as type"
  | .byteArray bs =>
    match t with
    | .FixedBytesTy size =>
      if size = bs.length then .ok (RightPadBytes bs 32)
      else .error "abi: cannot use array as type"
    | .AddressTy => .ok (LeftPadBytes bs 32)
    | _ => .error "abi: cannot use array as type"
  | _ => .error "abi: cannot use slice as type"

/-- The element loop of `Type.pack` for a slice of static elements:
`ret = append(ret, val...)` for each element in index order. -/
def packElems (t : AbiType) : List GoValue → List Nat → PackResult
  | [], ret => .ok ret
  | v :: vs, ret =>
    match packElem t v with
    | .ok val => packElems t vs (ret ++ val)
    | .error e => .error e
    | .panic => .panic

/-- Elements of a slice value, `none` when the value is not a slice, together
with the kind of the element type. -/
def GoValue.elems : GoValue → Option (Kind × List GoValue)
  | .addressSlice l => some (.Array, l.map .byteArray)
  | .bigIntSlice l => some (.Ptr, l.map .bigInt)
  | _ => none

/-- The method `Type.pack`: `indirect` first (a nil `*big.Int` panics there, whatever
the type), then for a slice `sliceTypeCheck`, the length word and the elements. -/
def AbiType.pack (t : AbiType) (v : GoValue) : PackResult :=
  match v with
  | .bigInt none => .panic
  | _ =>
    match t with
    | .SliceTy e =>
      match v.elems with
      | none => .error "abi: cannot use value as slice"
      | some (k, vs) =>
        if e.kind = k then packElems e vs (packNum vs.length)
        else .error "abi: cannot use slice as type"
    | _ => packElem t v

/-- The loop of `Arguments.Pack`: `ret` collects the head, `variableInput` the
tail, `inputOffset` the offset of the next tail. -/
def packLoop : List AbiType → List GoValue → Nat → List Nat → List Nat → PackResult
  | input :: abiArgs, a :: args, inputOffset, ret, variableInput =>
    match input.pack a with
    | .ok packed =>
      if isDynamicType input then
        packLoop abiArgs args (inputOffset + packed.length)
          (ret ++ packNum inputOffset) (variableInput ++ packed)
      else
        packLoop abiArgs args inputOffset (ret ++ packed) variableInput
    | .error e => .error e
    | .panic => .panic
  | _, _, _, ret, variableInput => .ok (ret ++ variableInput)

/-- The method `Arguments.Pack`. -/
def Arguments.Pack (abiArgs : List AbiType) (args : List GoValue) : PackResult :=
  if args.length ≠ abiArgs.length then
    .error ("argument count mismatch: got " ++ toString args.length ++ " for "
      ++ toString abiArgs.length)
  else
    let inputOffset := (abiArgs.map getTypeSize).sum
    packLoop abiArgs args inputOffset [] []

/-- A method of a parsed ABI description: its name and input types. -/
structure Method where
  Name : String
  Inputs : List AbiType
  deriving DecidableEq, Repr

/-- The field `Method.Sig`: `name(type1,type2,...)`. -/
def Method.Sig (m : Method) : String :=
  m.Name ++ "(" ++ ",".intercalate (m.Inputs.map AbiType.String) ++ ")"

/-- The field `Method.ID`: the first four bytes of the Keccak-256 hash of the signature. -/
def Method.ID (keccak : List Nat → Hash) (m : Method) : List Nat :=
  (keccak (ascii m.Sig)).bytes.take 4

/-- The method `ABI.Pack`. The empty name stands for the constructor, whose
arguments are packed without a selector; neither interface description of the
source declares a constructor, so its input list is empty. Any other name is
looked up among the methods. -/
def Pack (keccak : List Nat → Hash) (abi : List Method) (name : String)
    (args : List GoValue) : PackResult :=
  if name = "" then Arguments.Pack [] args
  else
    match abi.find? (fun m => m.Name == name) with
    | none => .error ("method '" ++ name ++ "' not found")
    | some method =>
      match Arguments.Pack method.Inputs args with
      | .ok arguments => .ok (method.ID keccak ++ arguments)
      | .error e => .error e
      | .panic => .panic

/-! ## The packer from go-ethereum v1.16.0 on

From that release `packElement` refuses to write a negative `*big.Int` into a `uint` type;
nothing else in the path from `ABI.Pack` down differs. -/

/-- The error `errInvalidSign` of the library. -/
def errInvalidSign : String :=
  "abi: negatively-signed value cannot be packed into uint parameter"

/-- The function `packElem` with the sign check of `packElement`: after `indirect` and
`typeCheck`, a negative `*big.Int` for a `uint` type is the error `errInvalidSign`. -/
def packElemStrict (t : AbiType) (v : GoValue) : PackResult :=
  match t, v with
  | .UintTy _, .bigInt (some x) => if x < 0 then .error errInvalidSign else packElem t v
  | _, _ => packElem t v

/-- The element loop `packElems` over `packElemStrict`. -/
def packElemsStrict (t : AbiType) : List GoValue → List Nat → PackResult
  | [], ret => .ok ret
  | v :: vs, ret =>
    match packElemStrict t v with
    | .ok val => packElemsStrict t vs (ret ++ val)
    | .error e => .error e
    | .panic => .panic

/-- The method `Type.pack` over `packElemStrict`. -/
def AbiType.packStrict (t : AbiType) (v : GoValue) : PackResult :=
  match v with
  | .bigInt none => .panic
  | _ =>
    match t with
    | .SliceTy e =>
      match v.elems with
      | none => .error "abi: cannot use value as slice"
      | some (k, vs) =>
        if e.kind = k then packElemsStrict e vs (packNum vs.length)
        else .error "abi: cannot use slice as type"
    | _ => packElemStrict t v

/-- The loop `packLoop` over `AbiType.packStrict`. -/
def packLoopStrict : List AbiType → List GoValue → Nat → List Nat → List Nat → PackResult
  | input :: abiArgs, a :: args, inputOffset, ret, variableInput =>
    match input.packStrict a with
    | .ok packed =>
      if isDynamicType input then
        packLoopStrict abiArgs args (inputOffset + packed.length)
          (ret ++ packNum inputOffset) (variableInput ++ packed)
      else
        packLoopStrict abiArgs args inputOffset (ret ++ packed) variableInput
    | .error e => .error e
    | .panic => .panic
  | _, _, _, ret, variableInput => .ok (ret ++ variableInput)

/-- The method `Arguments.Pack` over `packLoopStrict`. -/
def Arguments.PackStrict (abiArgs : List AbiType) (args : List GoValue) : PackResult :=
  if args.length ≠ abiArgs.length then
    .error ("argument count mismatch: got " ++ toString args.length ++ " for "
      ++ toString abiArgs.length)
  else
    let inputOffset := (abiArgs.map getTypeSize).sum
    packLoopStrict abiArgs args inputOffset [] []

/-- The method `ABI.Pack` over `Arguments.PackStrict`. -/
def PackStrict (keccak : List Nat → Hash) (abi : List Method) (name : String)
    (args : List GoValue) : PackResult :=
  if name = "" then Arguments.PackStrict [] args
  else
    match abi.find? (fun m => m.Name == name) with
    | none => .error ("method '" ++ name ++ "' not found")
    | some method =>
      match Arguments.PackStrict method.Inputs args with
      | .ok arguments => .ok (method.ID keccak ++ arguments)
      | .error e => .error e
      | .panic => .panic

/-! ## The source file -/

/-- The one method that `ValsetCheckpointABIJSON` declares. -/
def checkpointMethod : Method :=
  { Name := "checkpoint",
    Inputs := [.FixedBytesTy 32, .FixedBytesTy 32, .UintTy 256, .SliceTy .AddressTy,
               .SliceTy (.UintTy 256), .UintTy 256, .AddressTy] }

/-- Parsed form of the constant `ValsetCheckpointABIJSON`. -/
def ValsetCheckpointABI : List Method := [checkpointMethod]

/-- The one method that `OutgoingBatchTxConfirmABIJSON` declares. -/
def transactionBatchMethod : Method :=
  { Name := "transactionBatch",
    Inputs := [.FixedBytesTy 32, .FixedBytesTy 32, .SliceTy (.UintTy 256), .SliceTy .AddressTy,
               .SliceTy (.UintTy 256), .UintTy 256, .AddressTy, .UintTy 256] }

/-- Parsed form of the constant `OutgoingBatchTxConfirmABIJSON`. -/
def OutgoingBatchTxConfirmABI : List Method := [transactionBatchMethod]

/-- The type `types.BridgeValidator`. -/
structure BridgeValidator where
  Power : Nat
  EthereumAddress : List Nat
  deriving DecidableEq, Repr

/-- The type `types.Valset`. `RewardAmount` is an `sdk.Int`, whose `BigInt()` is nil
when the value was never set. -/
structure Valset where
  Nonce : Nat
  Members : List BridgeValidator
  Height : Nat
  RewardAmount : Option Int
  RewardToken : List Nat
  deriving DecidableEq, Repr

/-- The type `types.ERC20Token`. -/
structure ERC20Token where
  Contract : List Nat
  Amount : Option Int
  deriving DecidableEq, Repr

/-- The type `types.OutgoingTransferTx`. -/
structure OutgoingTransferTx where
  Id : Nat
  Sender : List Nat
  DestAddress : List Nat
  Erc20Token : ERC20Token
  Erc20Fee : ERC20Token
  deriving DecidableEq, Repr

/-- The type `types.OutgoingTxBatch`. -/
structure OutgoingTxBatch where
  BatchNonce : Nat
  BatchTimeout : Nat
  Transactions : List OutgoingTransferTx
  TokenContract : List Nat
  Block : Nat
  deriving DecidableEq, Repr

/-- What a call of a builder does: return a hash, or panic. -/
inductive Outcome where
  | returned (hash : Hash)
  | panicked (msg : String)
  deriving DecidableEq

/-- The `checkpoint` array of `EncodeValsetConfirm`. -/
def checkpoint : List Nat := copyInto 32 (ascii "checkpoint")

/-- The `batchMethodName` array of `EncodeTxBatchConfirm`. -/
def batchMethodName : List Nat := copyInto 32 (ascii "transactionBatch")

/-- The argument list of the `contractAbi.Pack("checkpoint", ...)` call, for
the value `rewardAmount` of `valset.RewardAmount.BigInt()`. -/
def valsetArgs (peggyID : Hash) (valset : Valset) (rewardAmount : Option Int) : List GoValue :=
  let memberAddresses := valset.Members.map (fun m => HexToAddress m.EthereumAddress)
  let convertedPowers := valset.Members.map (fun m => some (int64 m.Power))
  let rewardToken := HexToAddress valset.RewardToken
  [.byteArray peggyID.bytes, .byteArray checkpoint, .bigInt (some (int64 valset.Nonce)),
   .addressSlice memberAddresses, .bigIntSlice convertedPowers, .bigInt rewardAmount,
   .byteArray rewardToken]

/-- The `bytes, err := contractAbi.Pack("checkpoint", ...)` step. -/
def valsetPacked (keccak : List Nat → Hash) (peggyID : Hash) (valset : Valset) : PackResult :=
  Pack keccak ValsetCheckpointABI "checkpoint" (valsetArgs peggyID valset valset.RewardAmount)

/-- The statements of `EncodeValsetConfirm` that follow the `Pack` call (lines
109-120), as a function of what the call handed back. -/
def valsetAfterPack (keccak : List Nat → Hash) (res : PackResult) : Outcome :=
  match res with
  | .error e => .panicked ("error packing checkpoint: " ++ e)
  | .panic => .panicked "runtime error"
  | .ok bytes => .returned (keccak (bytes.drop 4))

/-- The function `EncodeValsetConfirm` over the packer `pack` that `contractAbi.Pack`
stands for: the nil check of line 88, the `Pack` call, and the statements after it. -/
def EncodeValsetConfirmWith
    (pack : (List Nat → Hash) → List Method → String → List GoValue → PackResult)
    (keccak : List Nat → Hash) (peggyID : Hash) (valset : Valset) : Outcome :=
  match valset.RewardAmount with
  | none => .panicked "invalid reward amount passed in valset GetCheckpoint!"
  | some _ =>
    valsetAfterPack keccak
      (pack keccak ValsetCheckpointABI "checkpoint"
        (valsetArgs peggyID valset valset.RewardAmount))

/-- The function `EncodeValsetConfirm`, with the packer `Pack`. -/
def EncodeValsetConfirm (keccak : List Nat → Hash) (peggyID : Hash) (valset : Valset) : Outcome :=
  EncodeValsetConfirmWith Pack keccak peggyID valset

/-- The argument list of the `abi.Pack("transactionBatch", ...)` call. -/
def batchArgs (peggyID : Hash) (batch : OutgoingTxBatch) : List GoValue :=
  let txAmounts := batch.Transactions.map (fun tx => tx.Erc20Token.Amount)
  let txDestinations := batch.Transactions.map (fun tx => HexToAddress tx.DestAddress)
  let txFees := batch.Transactions.map (fun tx => tx.Erc20Fee.Amount)
  [.byteArray peggyID.bytes, .byteArray batchMethodName, .bigIntSlice txAmounts,
   .addressSlice txDestinations, .bigIntSlice txFees, .bigInt (some (int64 batch.BatchNonce)),
   .byteArray (HexToAddress batch.TokenContract), .bigInt (some (int64 batch.BatchTimeout))]

/-- The `abiEncodedBatch, err := abi.Pack("transactionBatch", ...)` step. -/
def batchPacked (keccak : List Nat → Hash) (peggyID : Hash) (batch : OutgoingTxBatch) : PackResult :=
  Pack keccak OutgoingBatchTxConfirmABI "transactionBatch" (batchArgs peggyID batch)

/-- The statements of `EncodeTxBatchConfirm` that follow the `Pack` call (lines
162-169), as a function of what the call handed back. -/
def batchAfterPack (keccak : List Nat → Hash) (res : PackResult) : Outcome :=
  match res with
  | .error _ => .returned Hash.zero
  | .panic => .panicked "runtime error"
  | .ok abiEncodedBatch => .returned (BytesToHash (keccak (abiEncodedBatch.drop 4)).bytes)

/-- The function `EncodeTxBatchConfirm` over the packer `pack` that `abi.Pack` stands
for: the `Pack` call and the statements after it. -/
def EncodeTxBatchConfirmWith
    (pack : (List Nat → Hash) → List Method → String → List GoValue → PackResult)
    (keccak : List Nat → Hash) (peggyID : Hash) (batch : OutgoingTxBatch) : Outcome :=
  batchAfterPack keccak
    (pack keccak OutgoingBatchTxConfirmABI "transactionBatch" (batchArgs peggyID batch))

/-- The function `EncodeTxBatchConfirm`, with the packer `Pack`. -/
def EncodeTxBatchConfirm (keccak : List Nat → Hash) (peggyID : Hash) (batch : OutgoingTxBatch) :
    Outcome :=
  EncodeTxBatchConfirmWith Pack keccak peggyID batch

/-- The builder `EncodeValsetConfirm` with `name` written in place of "checkpoint" both in
the interface description and in the `Pack` call; everything else as in the source. -/
def EncodeValsetConfirmNamed (name : String) (keccak : List Nat → Hash) (peggyID : Hash)
    (valset : Valset) : Outcome :=
  match valset.RewardAmount with
  | none => .panicked "invalid reward amount passed in valset GetCheckpoint!"
  | some _ =>
    valsetAfterPack keccak
      (Pack keccak [{ checkpointMethod with Name := name }] name
        (valsetArgs peggyID valset valset.RewardAmount))

/-- The builder `EncodeTxBatchConfirm` with `name` written in place of "transactionBatch"
both in the interface description and in the `Pack` call; everything else as in the source. -/
def EncodeTxBatchConfirmNamed (name : String) (keccak : List Nat → Hash) (peggyID : Hash)
    (batch : OutgoingTxBatch) : Outcome :=
  batchAfterPack keccak
    (Pack keccak [{ transactionBatchMethod with Name := name }] name (batchArgs peggyID batch))

/-- A hexadecimal letter in lower case; any other byte as it is. -/
def lowerHex (c : Nat) : Nat := if 65 ≤ c ∧ c ≤ 70 then c + 32 else c

/-- An address text without its "0x" or "0X" in front, if it has one. -/
def stripPrefix (s : List Nat) : List Nat := if has0xPrefix s then s.drop 2 else s

/-- Two address texts that differ at most in the case of hexadecimal letters, or in the
presence of the "0x" in front of a text that has none of its own, or in both. -/
def sameAddressText (s t : List Nat) : Bool :=
  s.map lowerHex == t.map lowerHex
    || ((stripPrefix s).map lowerHex == (stripPrefix t).map lowerHex
        && !has0xPrefix (stripPrefix s) && !has0xPrefix (stripPrefix t))

/-- Two members with the same power and the same address text in the sense of
`sameAddressText`. -/
def sameMember (m m' : BridgeValidator) : Bool :=
  m.Power == m'.Power && sameAddressText m.EthereumAddress m'.EthereumAddress

/-- Two transfers with the same amounts and fees and the same destination text in the sense
of `sameAddressText`. -/
def sameTransfer (tx tx' : OutgoingTransferTx) : Bool :=
  tx.Erc20Token.Amount == tx'.Erc20Token.Amount && tx.Erc20Fee.Amount == tx'.Erc20Fee.Amount
    && sameAddressText tx.DestAddress tx'.DestAddress

/-- Pointwise comparison of two lists of the same length. -/
def allSame {α : Type} (same : α → α → Bool) : List α → List α → Bool
  | [], [] => true
  | a :: l, b :: l' => same a b && allSame same l l'
  | _, _ => false

/-- A transfer with its amount and fee reduced modulo 2^256. -/
def OutgoingTransferTx.reduced (tx : OutgoingTransferTx) : OutgoingTransferTx :=
  { tx with
    Erc20Token := { tx.Erc20Token with Amount := tx.Erc20Token.Amount.map (fun a => a % 2 ^ 256) },
    Erc20Fee := { tx.Erc20Fee with Amount := tx.Erc20Fee.Amount.map (fun a => a % 2 ^ 256) } }

/-- A batch with every amount and fee reduced modulo 2^256. -/
def OutgoingTxBatch.reduced (batch : OutgoingTxBatch) : OutgoingTxBatch :=
  { batch with Transactions := batch.Transactions.map OutgoingTransferTx.reduced }

/-- The 32-byte word number `i` (counted from 0) of a byte string. -/
def wordAt (bs : List Nat) (i : Nat) : List Nat := (bs.drop (32 * i)).take 32

/-! ## The ABI encoding, as the contract ABI specification words it

Independent of the packer above; the two are compared by the theorems. -/

namespace AbiSpec

/-- The encoding `enc(X)` for `uint256`: the big-endian digits of `X` in base 256, padded on
the higher-order (left) side with zero bytes to 32 bytes. -/
def encUint (n : Nat) : List Nat :=
  let be := (Nat.digits 256 n).reverse
  List.replicate (32 - be.length) 0 ++ be

/-- Values of the static types in use. -/
inductive Static where
  | bytes32 (bs : List Nat)
  | uint256 (n : Nat)
  | address (a : List Nat)
  deriving DecidableEq, Repr

/-- A component of the encoded tuple: static, or a dynamic array `T[]` of
static elements. -/
inductive Value where
  | static (s : Static)
  | array (elems : List Static)
  deriving DecidableEq, Repr

/-- The encoding `enc` of a static value: `bytes32` is padded with trailing zero bytes,
`uint256` is `encUint`, an `address` stands right-aligned in its word. -/
def Static.enc : Static → List Nat
  | .bytes32 bs => bs ++ List.replicate (32 - bs.length) 0
  | .uint256 n => encUint n
  | .address a => List.replicate (32 - a.length) 0 ++ a

/-- The encoding `enc` of a component; for an array of `k` elements it is `enc(k)` followed
by the encodings of the elements. -/
def Value.enc : Value → List Nat
  | .static s => s.enc
  | .array elems => encUint elems.length ++ (elems.map Static.enc).flatten

/-- The part `tail(X)`: empty for a static component, `enc(X)` for a dynamic one. -/
def Value.tail : Value → List Nat
  | .static _ => []
  | .array elems => (Value.array elems).enc

/-- The part `head(X)`: `enc(X)` for a static component; for a dynamic one the offset of
the start of `tail(X)` from the start of the tuple encoding. -/
def Value.head (offset : Nat) : Value → List Nat
  | .static s => s.enc
  | .array _ => encUint offset

/-- The heads of the components `xs`, the first of whose tails starts at
`offset`. -/
def heads : List Value → Nat → List Nat
  | [], _ => []
  | x :: xs, offset => x.head offset ++ heads xs (offset + x.tail.length)

/-- The encoding `enc` of a tuple: `head(X1) ... head(Xk) tail(X1) ... tail(Xk)`. -/
def encTuple (xs : List Value) : List Nat :=
  let headLen := ((xs.map (fun x => x.head 0)).map List.length).sum
  heads xs headLen ++ (xs.map Value.tail).flatten

end AbiSpec

/-- The 7-tuple of a checkpoint: field order and types as the specification lists them. -/
def checkpointTuple (peggyID : Hash) (nonce : Nat) (members : List (List Nat × Nat))
    (rewardAmount : Nat) (rewardToken : List Nat) : List AbiSpec.Value :=
  [.static (.bytes32 peggyID.bytes),
   .static (.bytes32 (ascii "checkpoint" ++ List.replicate 22 0)),
   .static (.uint256 nonce),
   .array (members.map (fun m => .address m.1)),
   .array (members.map (fun m => .uint256 m.2)),
   .static (.uint256 rewardAmount),
   .static (.address rewardToken)]

/-- The members of a validator set as (parsed address, power) pairs. -/
def Valset.parsedMembers (valset : Valset) : List (List Nat × Nat) :=
  valset.Members.map (fun m => (HexToAddress m.EthereumAddress, m.Power))

/-- The 8-tuple of a batch: field order and types as the specification lists them. -/
def batchTuple (peggyID : Hash) (amounts : List Nat) (destinations : List (List Nat))
    (fees : List Nat) (batchNonce : Nat) (tokenContract : List Nat) (batchTimeout : Nat) :
    List AbiSpec.Value :=
  [.static (.bytes32 peggyID.bytes),
   .static (.bytes32 (ascii "transactionBatch" ++ List.replicate 16 0)),
   .array (amounts.map (fun a => .uint256 a)),
   .array (destinations.map (fun d => .address d)),
   .array (fees.map (fun f => .uint256 f)),
   .static (.uint256 batchNonce),
   .static (.address tokenContract),
   .static (.uint256 batchTimeout)]

/-- The value of a present big integer as a natural number. -/
def bigNat (x : Option Int) : Nat := (x.getD 0).toNat

/-! ## Metadata cache

The function `ERC20ToDenom` of package `orchestrator` is not among the source files;
`main_loops_test.go` calls it. It is modelled from section 4.6 of the specification. -/

/-- Modelled from the spec: the lower-case hexadecimal digit of a value below 16, used by
the canonical address text of the missing `ERC20ToDenom`. -/
def hexDigit (n : Nat) : Nat := if n < 10 then 48 + n else 87 + n

/-- Modelled from the spec: the canonical text of a token address, which the missing
`ERC20ToDenom` uses as cache key and in its query: "0x" followed by two lower-case
hexadecimal digits for each byte of the address. -/
def normalizedAddress (tokenAddr : List Nat) : List Nat :=
  ascii "0x" ++ (tokenAddr.map (fun b => [hexDigit (b / 16 % 16), hexDigit (b % 16)])).flatten

/-- Modelled from the spec: a reply of the injected query client (`LookupDenom` in section
4.6, `QueryERC20ToDenom` in section 6), which is missing from the source files: a binding, no
binding, or a failure of the transport. -/
inductive LookupReply where
  | found (denom : String)
  | notFound
  | failed (err : String)
  deriving DecidableEq, Repr

/-- Modelled from the spec: the state of the Metadata Cache of section 4.6, missing from
the source files: the address-to-denomination entries, and the external lookups issued so
far (oldest first), which is what a stubbed query client counts. -/
structure MetadataCache where
  entries : List (List Nat × String)
  lookups : List (List Nat)
  deriving DecidableEq, Repr

/-- Modelled from the spec: the cached denomination of a key, for the missing cache. -/
def MetadataCache.get (cache : MetadataCache) (key : List Nat) : Option String :=
  (cache.entries.find? (fun e => e.1 == key)).map (fun e => e.2)

/-- Modelled from the spec: the pair a call of the missing `ERC20ToDenom` returns, a
denomination and an error (none when the call succeeded). -/
structure Resolved where
  denom : String
  err : Option String
  deriving DecidableEq, Repr

/-- Modelled from the spec: the function `ERC20ToDenom` (`Resolve` in section 4.6), whose
code is missing from the source files. A cache hit returns at once with no external call. A
miss issues one lookup with the normalised address; a binding is stored and returned, no
binding fails with "no denom found for token" and is not cached, a transport failure is
handed on unchanged. -/
def ERC20ToDenom (client : List Nat → LookupReply) (cache : MetadataCache)
    (tokenAddr : List Nat) : Resolved × MetadataCache :=
  let key := normalizedAddress tokenAddr
  match cache.get key with
  | some denom => ({ denom := denom, err := none }, cache)
  | none =>
    let asked : MetadataCache := { cache with lookups := cache.lookups ++ [key] }
    match client key with
    | .found denom =>
      ({ denom := denom, err := none }, { asked with entries := (key, denom) :: asked.entries })
    | .notFound => ({ denom := "", err := some "no denom found for token" }, asked)
    | .failed e => ({ denom := "", err := some e }, asked)

/-! ## Sample inputs

Concrete values at which the theorems are instantiated. -/

/-- A stand-in for the hash primitive: the last 32 bytes of the input, padded. -/
def sampleKeccak : List Nat → Hash := fun bs => BytesToHash bs

/-- A bridge instance identifier. -/
def samplePeggyID : Hash := ⟨List.replicate 32 7, by decide⟩

/-- A validator set of two members. -/
def sampleValset : Valset :=
  { Nonce := 3,
    Members := [{ Power := 5, EthereumAddress := ascii "0x00000000000000000000000000000000000000a1" },
                { Power := 6, EthereumAddress := ascii "0x00000000000000000000000000000000000000b2" }],
    Height := 10,
    RewardAmount := some 9,
    RewardToken := ascii "0x00000000000000000000000000000000000000c3" }

/-- The set `sampleValset` with another reward amount. -/
def sampleValsetWithReward (rewardAmount : Option Int) : Valset :=
  { sampleValset with RewardAmount := rewardAmount }

/-- A validator set with a member whose power has the top bit of its 64 set. -/
def highPowerValset : Valset :=
  { sampleValset with
    Members := [{ Power := 2 ^ 63,
                  EthereumAddress := ascii "0x00000000000000000000000000000000000000a1" }] }

/-- A validator set whose nonce has the top bit of its 64 set. -/
def highNonceValset : Valset := { sampleValset with Nonce := 2 ^ 63 }

/-- A batch of one transaction. -/
def sampleBatch : OutgoingTxBatch :=
  { BatchNonce := 4,
    BatchTimeout := 1000,
    Transactions := [{ Id := 1, Sender := ascii "sender",
                       DestAddress := ascii "0x00000000000000000000000000000000000000d4",
                       Erc20Token := { Contract := ascii "0xc3", Amount := some 70 },
                       Erc20Fee := { Contract := ascii "0xc3", Amount := some 2 } }],
    TokenContract := ascii "0x00000000000000000000000000000000000000c3",
    Block := 11 }

/-- The batch `sampleBatch` with another amount in its transaction. -/
def sampleBatchWithAmount (amount : Option Int) : OutgoingTxBatch :=
  { sampleBatch with
    Transactions := sampleBatch.Transactions.map
      (fun tx => { tx with Erc20Token := { tx.Erc20Token with Amount := amount } }) }

/-- A batch whose nonce and timeout have the top bit of their 64 set. -/
def highNonceBatch : OutgoingTxBatch :=
  { sampleBatch with BatchNonce := 2 ^ 63, BatchTimeout := 2 ^ 64 - 1 }


/-- The sample set with its address texts in upper case and without "0x". -/
def sampleValsetRetyped : Valset :=
  { Nonce := 3,
    Members := [{ Power := 5, EthereumAddress := ascii "00000000000000000000000000000000000000A1" },
                { Power := 6, EthereumAddress := ascii "0X00000000000000000000000000000000000000B2" }],
    Height := 10,
    RewardAmount := some 9,
    RewardToken := ascii "00000000000000000000000000000000000000C3" }

/-- The sample batch with its address texts in upper case and without "0x". -/
def sampleBatchRetyped : OutgoingTxBatch :=
  { BatchNonce := 4,
    BatchTimeout := 1000,
    Transactions := [{ Id := 1, Sender := ascii "sender",
                       DestAddress := ascii "00000000000000000000000000000000000000D4",
                       Erc20Token := { Contract := ascii "0xc3", Amount := some 70 },
                       Erc20Fee := { Contract := ascii "0xc3", Amount := some 2 } }],
    TokenContract := ascii "00000000000000000000000000000000000000C3",
    Block := 11 }

/-- The zero address, as `HexToAddress("0x0")` gives it. -/
def zeroAddress : List Nat := HexToAddress (ascii "0x0")

/-- A stubbed query client that knows the zero address as "hilo" and nothing else. -/
def hiloClient : List Nat → LookupReply := fun key =>
  if key = ascii "0x0000000000000000000000000000000000000000" then .found "hilo" else .notFound

/-- A stubbed query client that knows no binding. -/
def emptyClient : List Nat → LookupReply := fun _ => .notFound

/-- The cache of a fresh orchestrator. -/
def freshCache : MetadataCache := { entries := [], lookups := [] }

/-! ## Auxiliary facts about words and padding -/

theorem EncodeValsetConfirm_unfold (keccak : List Nat → Hash) (peggyID : Hash)
    (valset : Valset) :
    EncodeValsetConfirm keccak peggyID valset
      = match valset.RewardAmount with
        | none => .panicked "invalid reward amount passed in valset GetCheckpoint!"
        | some _ =>
          match valsetPacked keccak peggyID valset with
          | .error e => .panicked ("error packing checkpoint: " ++ e)
          | .panic => .panicked "runtime error"
          | .ok bytes => .returned (keccak (bytes.drop 4)) := rfl

theorem EncodeTxBatchConfirm_unfold (keccak : List Nat → Hash) (peggyID : Hash)
    (batch : OutgoingTxBatch) :
    EncodeTxBatchConfirm keccak peggyID batch
      = match batchPacked keccak peggyID batch with
        | .error _ => .returned Hash.zero
        | .panic => .panicked "runtime error"
        | .ok abiEncodedBatch =>
          .returned (BytesToHash (keccak (abiEncodedBatch.drop 4)).bytes) := rfl

theorem setBytes_length (n : Nat) (b : List Nat) : (setBytes n b).length = n := by
  unfold setBytes
  split <;> simp <;> omega

theorem HexToAddress_length (s : List Nat) : (HexToAddress s).length = 20 :=
  setBytes_length 20 _

theorem wordBE_length (n : Nat) : (wordBE n).length = 32 := by
  simp [wordBE]

theorem U256Bytes_length (x : Int) : (U256Bytes x).length = 32 := wordBE_length _

/-- Big-endian digits, padded on the left to `k` places, are the `k` quotients
by descending powers of the base. -/
theorem padded_digits_eq (k : Nat) : ∀ n : Nat, n < 256 ^ k →
    List.replicate (k - (Nat.digits 256 n).length) 0 ++ (Nat.digits 256 n).reverse
      = (List.range k).map (fun i => n / 256 ^ (k - 1 - i) % 256) := by
  induction k with
  | zero =>
    intro n hn
    have : n = 0 := by simpa using hn
    subst this
    simp
  | succ k ih =>
    intro n hn
    have hq : n / 256 < 256 ^ k := by
      rw [Nat.div_lt_iff_lt_mul (by norm_num)]
      rw [pow_succ] at hn
      exact hn
    have hr : (List.range (k + 1)).map (fun i => n / 256 ^ (k + 1 - 1 - i) % 256)
        = (List.range k).map (fun i => n / 256 / 256 ^ (k - 1 - i) % 256) ++ [n % 256] := by
      rw [List.range_succ, List.map_append]
      congr 1
      · apply List.map_congr_left
        intro i hi
        have hi' : i < k := List.mem_range.mp hi
        have : k + 1 - 1 - i = (k - 1 - i) + 1 := by omega
        rw [this, pow_succ, Nat.div_div_eq_div_mul, Nat.mul_comm]
      · simp
    rw [hr, ← ih (n / 256) hq]
    rcases Nat.eq_zero_or_pos n with h0 | hpos
    · subst h0
      simp [List.replicate_succ']
    · rw [Nat.digits_def' (by norm_num) hpos]
      simp

theorem encUint_eq_wordBE (n : Nat) (h : n < 2 ^ 256) : AbiSpec.encUint n = wordBE n := by
  have h' : n < 256 ^ 32 := by
    have : (256 : Nat) ^ 32 = 2 ^ 256 := by norm_num
    omega
  have := padded_digits_eq 32 n h'
  simpa [AbiSpec.encUint, wordBE] using this

theorem U256Bytes_natCast (n : Nat) (h : n < 2 ^ 256) : U256Bytes (n : Int) = wordBE n := by
  unfold U256Bytes
  congr 1
  have : ((n : Int) % 2 ^ 256) = (n : Int) := Int.emod_eq_of_lt (by positivity) (by exact_mod_cast h)
  rw [this]
  simp

theorem U256Bytes_of_range (x : Int) (h0 : 0 ≤ x) (h1 : x < 2 ^ 256) :
    U256Bytes x = wordBE x.toNat := by
  unfold U256Bytes
  rw [Int.emod_eq_of_lt h0 h1]

theorem int64_of_lt (x : Nat) (h : x < 2 ^ 63) : int64 x = (x : Int) := by
  unfold int64
  have : x % 2 ^ 64 = x := Nat.mod_eq_of_lt (by omega)
  rw [this, if_pos h]

theorem packNum_eq (n : Nat) (h : n < 2 ^ 256) : packNum n = AbiSpec.encUint n := by
  rw [packNum, U256Bytes_natCast n h, encUint_eq_wordBE n h]

/-! ## The element loops -/

theorem packElems_address (l : List (List Nat)) : ∀ ret : List Nat,
    packElems .AddressTy (l.map .byteArray) ret
      = .ok (ret ++ (l.map (fun a => LeftPadBytes a 32)).flatten) := by
  induction l with
  | nil => intro ret; simp [packElems]
  | cons a l ih => intro ret; simp [packElems, packElem, ih]

theorem packElems_uint {α : Type} (size : Nat) (f : α → Int) (l : List α) : ∀ ret : List Nat,
    packElems (.UintTy size) (l.map (fun m => .bigInt (some (f m)))) ret
      = .ok (ret ++ (l.map (fun m => U256Bytes (f m))).flatten) := by
  induction l with
  | nil => intro ret; simp [packElems]
  | cons a l ih => intro ret; simp [packElems, packElem, ih]

theorem length_flatten_words {α : Type} (l : List α) (f : α → List Nat)
    (h : ∀ a ∈ l, (f a).length = 32) : (l.map f).flatten.length = 32 * l.length := by
  induction l with
  | nil => simp
  | cons a l ih =>
    have h1 := h a (by simp)
    have h2 := ih (fun b hb => h b (by simp [hb]))
    simp only [List.map_cons, List.flatten_cons, List.length_append, List.length_cons, h1, h2]
    omega

theorem methodID_length (keccak : List Nat → Hash) (m : Method) : (m.ID keccak).length = 4 := by
  simp [Method.ID, (keccak _).len]

theorem checkpoint_length : checkpoint.length = 32 := by decide

theorem batchMethodName_length : batchMethodName.length = 32 := by decide

theorem pack_addressSlice (l : List (List Nat)) :
    AbiType.pack (.SliceTy .AddressTy) (.addressSlice l)
      = .ok (packNum l.length ++ (l.map (fun a => LeftPadBytes a 32)).flatten) := by
  simp [AbiType.pack, GoValue.elems, AbiType.kind, packElems_address]

theorem pack_bigIntSlice {α : Type} (f : α → Int) (l : List α) :
    AbiType.pack (.SliceTy (.UintTy 256)) (.bigIntSlice (l.map (fun m => some (f m))))
      = .ok (packNum l.length ++ (l.map (fun m => U256Bytes (f m))).flatten) := by
  have := packElems_uint 256 f l (packNum l.length)
  simp only [AbiType.pack, GoValue.elems, AbiType.kind, List.map_map, List.length_map, if_true]
  exact this

theorem pack_bytes32 (bs : List Nat) (h : bs.length = 32) :
    AbiType.pack (.FixedBytesTy 32) (.byteArray bs) = .ok bs := by
  simp [AbiType.pack, packElem, h, RightPadBytes]

theorem pack_uint (x : Int) : AbiType.pack (.UintTy 256) (.bigInt (some x)) = .ok (U256Bytes x) := by
  simp [AbiType.pack, packElem]

theorem pack_address (a : List Nat) :
    AbiType.pack .AddressTy (.byteArray a) = .ok (LeftPadBytes a 32) := by
  simp [AbiType.pack, packElem]

/-- The bytes of the packed `checkpoint` call, written out. -/
theorem valsetPacked_eq (keccak : List Nat → Hash) (peggyID : Hash) (valset : Valset) (r : Int)
    (hR : valset.RewardAmount = some r) :
    valsetPacked keccak peggyID valset = .ok
      (checkpointMethod.ID keccak ++
        (peggyID.bytes ++ checkpoint ++ U256Bytes (int64 valset.Nonce) ++ packNum 224
          ++ packNum (224 + (32 + 32 * valset.Members.length)) ++ U256Bytes r
          ++ LeftPadBytes (HexToAddress valset.RewardToken) 32
          ++ (packNum valset.Members.length
              ++ (valset.Members.map
                    (fun m => LeftPadBytes (HexToAddress m.EthereumAddress) 32)).flatten)
          ++ (packNum valset.Members.length
              ++ (valset.Members.map (fun m => U256Bytes (int64 m.Power))).flatten))) := by
  have hs := pack_bigIntSlice (fun m : BridgeValidator => int64 m.Power) valset.Members
  have hlen : ((valset.Members.map (fun m => LeftPadBytes (HexToAddress m.EthereumAddress) 32)).flatten).length
      = 32 * valset.Members.length :=
    length_flatten_words _ _ (fun m _ => by simp [LeftPadBytes, HexToAddress_length])
  simp [valsetPacked, Pack, ValsetCheckpointABI, checkpointMethod, valsetArgs, hR, List.find?, Arguments.Pack,
    packLoop, pack_bytes32 _ peggyID.len, pack_bytes32 _ checkpoint_length, pack_uint,
    pack_addressSlice, pack_address, isDynamicType, getTypeSize, hs, Function.comp_def, hlen,
    packNum, U256Bytes_length]



theorem packElems_bigInt {α : Type} (size : Nat) (g : α → Option Int) (l : List α)
    (h : ∀ m ∈ l, g m ≠ none) : ∀ ret : List Nat,
    packElems (.UintTy size) (l.map (fun m => .bigInt (g m))) ret
      = .ok (ret ++ (l.map (fun m => U256Bytes ((g m).getD 0))).flatten) := by
  induction l with
  | nil => intro ret; simp [packElems]
  | cons a l ih =>
    intro ret
    have ha := h a (by simp)
    obtain ⟨x, hx⟩ := Option.ne_none_iff_exists'.mp ha
    have ih' := ih (fun m hm => h m (by simp [hm]))
    simp [packElems, packElem, hx, ih']

theorem pack_bigIntSlice_present {α : Type} (g : α → Option Int) (l : List α)
    (h : ∀ m ∈ l, g m ≠ none) :
    AbiType.pack (.SliceTy (.UintTy 256)) (.bigIntSlice (l.map g))
      = .ok (packNum l.length ++ (l.map (fun m => U256Bytes ((g m).getD 0))).flatten) := by
  have := packElems_bigInt 256 g l h (packNum l.length)
  simp only [AbiType.pack, GoValue.elems, AbiType.kind, List.map_map, List.length_map, if_true]
  exact this

/-- The bytes of the packed `transactionBatch` call, written out, when every
amount and fee is present. -/
theorem batchPacked_eq (keccak : List Nat → Hash) (peggyID : Hash) (batch : OutgoingTxBatch)
    (hA : ∀ tx ∈ batch.Transactions, tx.Erc20Token.Amount ≠ none)
    (hF : ∀ tx ∈ batch.Transactions, tx.Erc20Fee.Amount ≠ none) :
    batchPacked keccak peggyID batch = .ok
      (transactionBatchMethod.ID keccak ++
        (peggyID.bytes ++ batchMethodName ++ packNum 256
          ++ packNum (256 + (32 + 32 * batch.Transactions.length))
          ++ packNum (256 + (32 + 32 * batch.Transactions.length)
                + (32 + 32 * batch.Transactions.length))
          ++ U256Bytes (int64 batch.BatchNonce)
          ++ LeftPadBytes (HexToAddress batch.TokenContract) 32
          ++ U256Bytes (int64 batch.BatchTimeout)
          ++ (packNum batch.Transactions.length
              ++ (batch.Transactions.map
                    (fun tx => U256Bytes (tx.Erc20Token.Amount.getD 0))).flatten)
          ++ (packNum batch.Transactions.length
              ++ (batch.Transactions.map
                    (fun tx => LeftPadBytes (HexToAddress tx.DestAddress) 32)).flatten)
          ++ (packNum batch.Transactions.length
              ++ (batch.Transactions.map
                    (fun tx => U256Bytes (tx.Erc20Fee.Amount.getD 0))).flatten))) := by
  have hs1 := pack_bigIntSlice_present (fun tx : OutgoingTransferTx => tx.Erc20Token.Amount)
    batch.Transactions hA
  have hs2 := pack_bigIntSlice_present (fun tx : OutgoingTransferTx => tx.Erc20Fee.Amount)
    batch.Transactions hF
  have hlen1 : ((batch.Transactions.map
      (fun tx => U256Bytes (tx.Erc20Token.Amount.getD 0))).flatten).length
      = 32 * batch.Transactions.length :=
    length_flatten_words _ _ (fun m _ => U256Bytes_length _)
  have hlen2 : ((batch.Transactions.map
      (fun tx => LeftPadBytes (HexToAddress tx.DestAddress) 32)).flatten).length
      = 32 * batch.Transactions.length :=
    length_flatten_words _ _ (fun m _ => by simp [LeftPadBytes, HexToAddress_length])
  simp [batchPacked, Pack, OutgoingBatchTxConfirmABI, transactionBatchMethod, batchArgs, List.find?, Arguments.Pack,
    packLoop, pack_bytes32 _ peggyID.len, pack_bytes32 _ batchMethodName_length, pack_uint,
    pack_addressSlice, pack_address, isDynamicType, getTypeSize, hs1, hs2, Function.comp_def,
    hlen1, hlen2, packNum, U256Bytes_length]

theorem drop_methodID (keccak : List Nat → Hash) (m : Method) (rest : List Nat) :
    (m.ID keccak ++ rest).drop 4 = rest :=
  List.drop_left' (methodID_length keccak m)

theorem LeftPadBytes_address (s : List Nat) :
    LeftPadBytes (HexToAddress s) 32 = List.replicate 12 0 ++ HexToAddress s := by
  simp [LeftPadBytes, HexToAddress_length]

theorem encUint_length (n : Nat) (h : n < 2 ^ 256) : (AbiSpec.encUint n).length = 32 := by
  rw [encUint_eq_wordBE n h, wordBE_length]

theorem encUint_int64 (x : Nat) (h : x < 2 ^ 63) : AbiSpec.encUint x = U256Bytes (int64 x) := by
  rw [int64_of_lt _ h, U256Bytes_natCast _ (by omega), encUint_eq_wordBE _ (by omega)]

theorem encUint_toNat (r : Int) (h0 : 0 ≤ r) (h1 : r < 2 ^ 256) :
    AbiSpec.encUint r.toNat = U256Bytes r := by
  rw [U256Bytes_of_range r h0 h1, encUint_eq_wordBE]
  omega

theorem pad_address (s : List Nat) :
    List.replicate (32 - (HexToAddress s).length) 0 ++ HexToAddress s
      = LeftPadBytes (HexToAddress s) 32 := by
  simp [LeftPadBytes, HexToAddress_length]

/-- The written-out checkpoint bytes agree with the specification's tuple encoding. -/
theorem valset_layout_eq_encTuple (peggyID : Hash) (valset : Valset) (r : Int)
    (hlen : valset.Members.length < 2 ^ 63)
    (hN : valset.Nonce < 2 ^ 63) (hP : ∀ m ∈ valset.Members, m.Power < 2 ^ 63)
    (h0 : 0 ≤ r) (h1 : r < 2 ^ 256) :
    peggyID.bytes ++ checkpoint ++ U256Bytes (int64 valset.Nonce) ++ packNum 224
        ++ packNum (224 + (32 + 32 * valset.Members.length)) ++ U256Bytes r
        ++ LeftPadBytes (HexToAddress valset.RewardToken) 32
        ++ (packNum valset.Members.length
            ++ (valset.Members.map
                  (fun m => LeftPadBytes (HexToAddress m.EthereumAddress) 32)).flatten)
        ++ (packNum valset.Members.length
            ++ (valset.Members.map (fun m => U256Bytes (int64 m.Power))).flatten)
      = AbiSpec.encTuple (checkpointTuple peggyID valset.Nonce valset.parsedMembers r.toNat
          (HexToAddress valset.RewardToken)) := by
  simp only [AbiSpec.encTuple, checkpointTuple, AbiSpec.heads, AbiSpec.Value.head,
    AbiSpec.Value.tail, AbiSpec.Value.enc, AbiSpec.Static.enc, Valset.parsedMembers,
    List.map_map, Function.comp_def, List.map_cons, List.map_nil, List.flatten_cons,
    List.flatten_nil, List.length_map]
  have ePow : valset.Members.map (fun x => AbiSpec.encUint x.Power)
      = valset.Members.map (fun m => U256Bytes (int64 m.Power)) :=
    List.map_congr_left (fun m hm => encUint_int64 _ (hP m hm))
  have hfl : ((valset.Members.map
      (fun m => LeftPadBytes (HexToAddress m.EthereumAddress) 32)).flatten).length
      = 32 * valset.Members.length :=
    length_flatten_words _ _ (fun m _ => by simp [LeftPadBytes, HexToAddress_length])
  have hck : checkpoint = ascii "checkpoint" ++ List.replicate 22 0 := by decide
  have hal : (ascii "checkpoint").length = 10 := by decide
  rw [packNum_eq 224 (by norm_num), packNum_eq (224 + (32 + 32 * valset.Members.length))
    (by omega), packNum_eq valset.Members.length (by omega)]
  simp only [pad_address, ePow, encUint_int64 _ hN, encUint_toNat r h0 h1, peggyID.len,
    encUint_length 0 (by norm_num), encUint_length valset.Members.length (by omega),
    U256Bytes_length, hfl, List.length_append, List.length_replicate, List.length_nil,
    List.append_nil, List.nil_append, List.append_assoc, List.sum_cons, List.sum_nil,
    hck, hal, Nat.sub_self, List.replicate_zero]
  simp only [LeftPadBytes, HexToAddress_length]
  norm_num [HexToAddress_length]

/-- C1: for in-range input the full call packed by EncodeValsetConfirm is the 4-byte selector
followed by the ABI encoding of the checkpoint 7-tuple (peggyID, "checkpoint" tag, nonce,
addresses, powers, reward amount, reward token); dropping the first 4 bytes leaves exactly
that encoding, and the returned value is its hash. The member count is a Go slice length,
hence below 2^63. -/
theorem valset_payload_is_abi_encoding (keccak : List Nat → Hash) (peggyID : Hash)
    (valset : Valset) (r : Int)
    (hlen : valset.Members.length < 2 ^ 63)
    (hN : valset.Nonce < 2 ^ 63) (hP : ∀ m ∈ valset.Members, m.Power < 2 ^ 63)
    (hR : valset.RewardAmount = some r) (h0 : 0 ≤ r) (h1 : r < 2 ^ 256) :
    valsetPacked keccak peggyID valset = .ok (checkpointMethod.ID keccak ++
        AbiSpec.encTuple (checkpointTuple peggyID valset.Nonce valset.parsedMembers r.toNat
          (HexToAddress valset.RewardToken)))
      ∧ (checkpointMethod.ID keccak ++
          AbiSpec.encTuple (checkpointTuple peggyID valset.Nonce valset.parsedMembers r.toNat
            (HexToAddress valset.RewardToken))).drop 4
        = AbiSpec.encTuple (checkpointTuple peggyID valset.Nonce valset.parsedMembers r.toNat
            (HexToAddress valset.RewardToken))
      ∧ EncodeValsetConfirm keccak peggyID valset = .returned (keccak (AbiSpec.encTuple
          (checkpointTuple peggyID valset.Nonce valset.parsedMembers r.toNat
            (HexToAddress valset.RewardToken)))) := by
  have hpk := valsetPacked_eq keccak peggyID valset r hR
  have hpay := valset_layout_eq_encTuple peggyID valset r hlen hN hP h0 h1
  rw [hpay] at hpk
  refine ⟨hpk, drop_methodID _ _ _, ?_⟩
  simp only [EncodeValsetConfirm_unfold, hR, hpk, drop_methodID]

/-- The checkpoint theorem at the two-member sample set. -/
theorem valset_payload_is_abi_encoding_witness :
    EncodeValsetConfirm sampleKeccak samplePeggyID sampleValset
      = .returned (sampleKeccak (AbiSpec.encTuple (checkpointTuple samplePeggyID 3
          sampleValset.parsedMembers 9 (HexToAddress sampleValset.RewardToken)))) :=
  (valset_payload_is_abi_encoding sampleKeccak samplePeggyID sampleValset 9
    (by decide) (by decide) (by decide) rfl (by decide) (by norm_num)).2.2

theorem encUint_bigNat (x : Option Int) (h : ∃ a, x = some a ∧ 0 ≤ a ∧ a < 2 ^ 256) :
    AbiSpec.encUint (bigNat x) = U256Bytes (x.getD 0) := by
  obtain ⟨a, rfl, h0, h1⟩ := h
  exact encUint_toNat a h0 h1

/-- Converting the bytes of a hash back with `BytesToHash` gives the hash. -/
theorem BytesToHash_bytes (h : Hash) : BytesToHash h.bytes = h := by
  cases h with
  | mk bs hl => simp [BytesToHash, setBytes, hl]

/-- The written-out batch bytes agree with the specification's tuple encoding. -/
theorem batch_layout_eq_encTuple (peggyID : Hash) (batch : OutgoingTxBatch)
    (hlen : batch.Transactions.length < 2 ^ 63)
    (hN : batch.BatchNonce < 2 ^ 63) (hT : batch.BatchTimeout < 2 ^ 63)
    (hA : ∀ tx ∈ batch.Transactions, ∃ a, tx.Erc20Token.Amount = some a ∧ 0 ≤ a ∧ a < 2 ^ 256)
    (hF : ∀ tx ∈ batch.Transactions, ∃ f, tx.Erc20Fee.Amount = some f ∧ 0 ≤ f ∧ f < 2 ^ 256) :
    peggyID.bytes ++ batchMethodName ++ packNum 256
        ++ packNum (256 + (32 + 32 * batch.Transactions.length))
        ++ packNum (256 + (32 + 32 * batch.Transactions.length)
              + (32 + 32 * batch.Transactions.length))
        ++ U256Bytes (int64 batch.BatchNonce)
        ++ LeftPadBytes (HexToAddress batch.TokenContract) 32
        ++ U256Bytes (int64 batch.BatchTimeout)
        ++ (packNum batch.Transactions.length
            ++ (batch.Transactions.map
                  (fun tx => U256Bytes (tx.Erc20Token.Amount.getD 0))).flatten)
        ++ (packNum batch.Transactions.length
            ++ (batch.Transactions.map
                  (fun tx => LeftPadBytes (HexToAddress tx.DestAddress) 32)).flatten)
        ++ (packNum batch.Transactions.length
            ++ (batch.Transactions.map
                  (fun tx => U256Bytes (tx.Erc20Fee.Amount.getD 0))).flatten)
      = AbiSpec.encTuple (batchTuple peggyID
          (batch.Transactions.map (fun tx => bigNat tx.Erc20Token.Amount))
          (batch.Transactions.map (fun tx => HexToAddress tx.DestAddress))
          (batch.Transactions.map (fun tx => bigNat tx.Erc20Fee.Amount))
          batch.BatchNonce (HexToAddress batch.TokenContract) batch.BatchTimeout) := by
  simp only [AbiSpec.encTuple, batchTuple, AbiSpec.heads, AbiSpec.Value.head,
    AbiSpec.Value.tail, AbiSpec.Value.enc, AbiSpec.Static.enc,
    List.map_map, Function.comp_def, List.map_cons, List.map_nil, List.flatten_cons,
    List.flatten_nil, List.length_map]
  have eAm : batch.Transactions.map (fun tx => AbiSpec.encUint (bigNat tx.Erc20Token.Amount))
      = batch.Transactions.map (fun tx => U256Bytes (tx.Erc20Token.Amount.getD 0)) :=
    List.map_congr_left (fun tx htx => encUint_bigNat _ (hA tx htx))
  have eFe : batch.Transactions.map (fun tx => AbiSpec.encUint (bigNat tx.Erc20Fee.Amount))
      = batch.Transactions.map (fun tx => U256Bytes (tx.Erc20Fee.Amount.getD 0)) :=
    List.map_congr_left (fun tx htx => encUint_bigNat _ (hF tx htx))
  have hfl1 : ((batch.Transactions.map
      (fun tx => U256Bytes (tx.Erc20Token.Amount.getD 0))).flatten).length
      = 32 * batch.Transactions.length :=
    length_flatten_words _ _ (fun m _ => U256Bytes_length _)
  have hfl2 : ((batch.Transactions.map
      (fun tx => LeftPadBytes (HexToAddress tx.DestAddress) 32)).flatten).length
      = 32 * batch.Transactions.length :=
    length_flatten_words _ _ (fun m _ => by simp [LeftPadBytes, HexToAddress_length])
  have hck : batchMethodName = ascii "transactionBatch" ++ List.replicate 16 0 := by decide
  have hal : (ascii "transactionBatch").length = 16 := by decide
  rw [packNum_eq 256 (by norm_num), packNum_eq (256 + (32 + 32 * batch.Transactions.length))
    (by omega), packNum_eq (256 + (32 + 32 * batch.Transactions.length)
      + (32 + 32 * batch.Transactions.length)) (by omega),
    packNum_eq batch.Transactions.length (by omega)]
  simp only [pad_address, eAm, eFe, encUint_int64 _ hN, encUint_int64 _ hT, peggyID.len,
    encUint_length 0 (by norm_num), encUint_length batch.Transactions.length (by omega),
    U256Bytes_length, hfl1, hfl2, List.length_append, List.length_replicate, List.length_nil,
    List.append_nil, List.nil_append, List.append_assoc, List.sum_cons, List.sum_nil,
    hck, hal, Nat.sub_self, List.replicate_zero]
  simp only [LeftPadBytes, HexToAddress_length]
  norm_num [HexToAddress_length]

/-- C2: for in-range input the full call packed by EncodeTxBatchConfirm is the 4-byte selector
followed by the ABI encoding of the batch 8-tuple (peggyID, "transactionBatch" tag, amounts,
destinations, fees, batch nonce, token contract, batch timeout); dropping the first 4 bytes
leaves exactly that encoding, and the returned value is its hash. The transaction count is a
Go slice length, hence below 2^63. -/
theorem batch_payload_is_abi_encoding (keccak : List Nat → Hash) (peggyID : Hash)
    (batch : OutgoingTxBatch)
    (hlen : batch.Transactions.length < 2 ^ 63)
    (hN : batch.BatchNonce < 2 ^ 63) (hT : batch.BatchTimeout < 2 ^ 63)
    (hA : ∀ tx ∈ batch.Transactions, ∃ a, tx.Erc20Token.Amount = some a ∧ 0 ≤ a ∧ a < 2 ^ 256)
    (hF : ∀ tx ∈ batch.Transactions, ∃ f, tx.Erc20Fee.Amount = some f ∧ 0 ≤ f ∧ f < 2 ^ 256) :
    batchPacked keccak peggyID batch = .ok (transactionBatchMethod.ID keccak ++
        AbiSpec.encTuple (batchTuple peggyID
          (batch.Transactions.map (fun tx => bigNat tx.Erc20Token.Amount))
          (batch.Transactions.map (fun tx => HexToAddress tx.DestAddress))
          (batch.Transactions.map (fun tx => bigNat tx.Erc20Fee.Amount))
          batch.BatchNonce (HexToAddress batch.TokenContract) batch.BatchTimeout))
      ∧ (transactionBatchMethod.ID keccak ++
          AbiSpec.encTuple (batchTuple peggyID
            (batch.Transactions.map (fun tx => bigNat tx.Erc20Token.Amount))
            (batch.Transactions.map (fun tx => HexToAddress tx.DestAddress))
            (batch.Transactions.map (fun tx => bigNat tx.Erc20Fee.Amount))
            batch.BatchNonce (HexToAddress batch.TokenContract) batch.BatchTimeout)).drop 4
        = AbiSpec.encTuple (batchTuple peggyID
            (batch.Transactions.map (fun tx => bigNat tx.Erc20Token.Amount))
            (batch.Transactions.map (fun tx => HexToAddress tx.DestAddress))
            (batch.Transactions.map (fun tx => bigNat tx.Erc20Fee.Amount))
            batch.BatchNonce (HexToAddress batch.TokenContract) batch.BatchTimeout)
      ∧ EncodeTxBatchConfirm keccak peggyID batch = .returned (keccak (AbiSpec.encTuple
          (batchTuple peggyID
            (batch.Transactions.map (fun tx => bigNat tx.Erc20Token.Amount))
            (batch.Transactions.map (fun tx => HexToAddress tx.DestAddress))
            (batch.Transactions.map (fun tx => bigNat tx.Erc20Fee.Amount))
            batch.BatchNonce (HexToAddress batch.TokenContract) batch.BatchTimeout))) := by
  have hA' : ∀ tx ∈ batch.Transactions, tx.Erc20Token.Amount ≠ none := fun tx htx => by
    obtain ⟨a, ha, _⟩ := hA tx htx
    simp [ha]
  have hF' : ∀ tx ∈ batch.Transactions, tx.Erc20Fee.Amount ≠ none := fun tx htx => by
    obtain ⟨a, ha, _⟩ := hF tx htx
    simp [ha]
  have hpk := batchPacked_eq keccak peggyID batch hA' hF'
  have hpay := batch_layout_eq_encTuple peggyID batch hlen hN hT hA hF
  rw [hpay] at hpk
  refine ⟨hpk, drop_methodID _ _ _, ?_⟩
  simp only [EncodeTxBatchConfirm_unfold, hpk, drop_methodID, BytesToHash_bytes]

/-- The batch theorem at the one-transaction sample batch. -/
theorem batch_payload_is_abi_encoding_witness :
    EncodeTxBatchConfirm sampleKeccak samplePeggyID sampleBatch
      = .returned (sampleKeccak (AbiSpec.encTuple (batchTuple samplePeggyID [70]
          [HexToAddress (ascii "0x00000000000000000000000000000000000000d4")] [2] 4
          (HexToAddress sampleBatch.TokenContract) 1000))) :=
  (batch_payload_is_abi_encoding sampleKeccak samplePeggyID sampleBatch
    (by decide) (by decide) (by decide)
    (by simp [sampleBatch]) (by simp [sampleBatch])).2.2

/-! ## When packing succeeds -/

theorem packElems_bigInt_absent {α : Type} (size : Nat) (g : α → Option Int) (l : List α)
    (h : ∃ m ∈ l, g m = none) : ∀ ret : List Nat,
    packElems (.UintTy size) (l.map (fun m => .bigInt (g m))) ret = .panic := by
  induction l with
  | nil => simp at h
  | cons a l ih =>
    intro ret
    cases hga : g a with
    | none => simp [packElems, packElem, hga]
    | some x =>
      have h' : ∃ m ∈ l, g m = none := by
        obtain ⟨m, hm, hgm⟩ := h
        rcases List.mem_cons.mp hm with rfl | hm'
        · rw [hga] at hgm
          cases hgm
        · exact ⟨m, hm', hgm⟩
      simp [packElems, packElem, hga, ih h']

theorem pack_bigIntSlice_absent {α : Type} (g : α → Option Int) (l : List α)
    (h : ∃ m ∈ l, g m = none) :
    AbiType.pack (.SliceTy (.UintTy 256)) (.bigIntSlice (l.map g)) = .panic := by
  have := packElems_bigInt_absent 256 g l h (packNum l.length)
  simp only [AbiType.pack, GoValue.elems, AbiType.kind, List.map_map, List.length_map, if_true]
  exact this

theorem pack_bigInt_nil (size : Nat) :
    AbiType.pack (.UintTy size) (.bigInt none) = .panic := by
  simp [AbiType.pack, packElem]

/-- With a nil reward amount handed to the packer, the packer panics. -/
theorem valsetPacked_nil (keccak : List Nat → Hash) (peggyID : Hash) (valset : Valset)
    (hR : valset.RewardAmount = none) : valsetPacked keccak peggyID valset = .panic := by
  have hs := pack_bigIntSlice (fun m : BridgeValidator => int64 m.Power) valset.Members
  simp [valsetPacked, Pack, ValsetCheckpointABI, checkpointMethod, valsetArgs, hR, List.find?,
    Arguments.Pack, packLoop, pack_bytes32 _ peggyID.len, pack_bytes32 _ checkpoint_length,
    pack_uint, pack_addressSlice, isDynamicType, getTypeSize, hs, pack_bigInt_nil]

theorem valsetPacked_ok_present (keccak : List Nat → Hash) (peggyID : Hash) (valset : Valset)
    (x : List Nat) (hx : valsetPacked keccak peggyID valset = .ok x) :
    ∃ r, valset.RewardAmount = some r := by
  cases hR : valset.RewardAmount with
  | none =>
    rw [valsetPacked_nil keccak peggyID valset hR] at hx
    cases hx
  | some r => exact ⟨r, rfl⟩

/-- A batch with a nil amount or fee makes the packer panic. -/
theorem batchPacked_absent (keccak : List Nat → Hash) (peggyID : Hash) (batch : OutgoingTxBatch)
    (h : (∃ tx ∈ batch.Transactions, tx.Erc20Token.Amount = none)
      ∨ (∃ tx ∈ batch.Transactions, tx.Erc20Fee.Amount = none)) :
    batchPacked keccak peggyID batch = .panic := by
  by_cases hA : ∃ tx ∈ batch.Transactions, tx.Erc20Token.Amount = none
  · have hs1 := pack_bigIntSlice_absent (fun tx : OutgoingTransferTx => tx.Erc20Token.Amount)
      batch.Transactions hA
    simp [batchPacked, Pack, OutgoingBatchTxConfirmABI, transactionBatchMethod, batchArgs,
      List.find?, Arguments.Pack, packLoop, pack_bytes32 _ peggyID.len,
      pack_bytes32 _ batchMethodName_length, isDynamicType, getTypeSize, hs1]
  · have hF : ∃ tx ∈ batch.Transactions, tx.Erc20Fee.Amount = none := by
      rcases h with h | h
      · exact absurd h hA
      · exact h
    have hA' : ∀ tx ∈ batch.Transactions, tx.Erc20Token.Amount ≠ none := by
      intro tx htx hn
      exact hA ⟨tx, htx, hn⟩
    have hs1 := pack_bigIntSlice_present (fun tx : OutgoingTransferTx => tx.Erc20Token.Amount)
      batch.Transactions hA'
    have hs2 := pack_bigIntSlice_absent (fun tx : OutgoingTransferTx => tx.Erc20Fee.Amount)
      batch.Transactions hF
    simp [batchPacked, Pack, OutgoingBatchTxConfirmABI, transactionBatchMethod, batchArgs,
      List.find?, Arguments.Pack, packLoop, pack_bytes32 _ peggyID.len,
      pack_bytes32 _ batchMethodName_length, pack_addressSlice, isDynamicType, getTypeSize,
      hs1, hs2]

theorem batchPacked_ok_present (keccak : List Nat → Hash) (peggyID : Hash)
    (batch : OutgoingTxBatch) (y : List Nat) (hy : batchPacked keccak peggyID batch = .ok y) :
    (∀ tx ∈ batch.Transactions, tx.Erc20Token.Amount ≠ none)
      ∧ (∀ tx ∈ batch.Transactions, tx.Erc20Fee.Amount ≠ none) := by
  constructor
  · intro tx htx hn
    rw [batchPacked_absent keccak peggyID batch (Or.inl ⟨tx, htx, hn⟩)] at hy
    cases hy
  · intro tx htx hn
    rw [batchPacked_absent keccak peggyID batch (Or.inr ⟨tx, htx, hn⟩)] at hy
    cases hy

/-! ## What the builders return -/

theorem EncodeValsetConfirm_of_ok (keccak : List Nat → Hash) (peggyID : Hash) (valset : Valset)
    (x : List Nat) (hx : valsetPacked keccak peggyID valset = .ok x) :
    EncodeValsetConfirm keccak peggyID valset = .returned (keccak (x.drop 4)) := by
  obtain ⟨r, hR⟩ := valsetPacked_ok_present keccak peggyID valset x hx
  simp only [EncodeValsetConfirm_unfold, hR, hx]

theorem EncodeTxBatchConfirm_of_ok (keccak : List Nat → Hash) (peggyID : Hash)
    (batch : OutgoingTxBatch) (y : List Nat) (hy : batchPacked keccak peggyID batch = .ok y) :
    EncodeTxBatchConfirm keccak peggyID batch = .returned (keccak (y.drop 4)) := by
  simp only [EncodeTxBatchConfirm_unfold, hy, BytesToHash_bytes]

theorem second_word (a b rest : List Nat) (ha : a.length = 32) (hb : b.length = 32) :
    ((a ++ (b ++ rest)).drop 32).take 32 = b := by
  rw [List.drop_left' ha, List.take_left' hb]

/-- The second 32-byte word of the packed checkpoint arguments is the checkpoint tag. -/
theorem valset_second_word (keccak : List Nat → Hash) (peggyID : Hash) (valset : Valset)
    (x : List Nat) (hx : valsetPacked keccak peggyID valset = .ok x) :
    ((x.drop 4).drop 32).take 32 = checkpoint := by
  obtain ⟨r, hR⟩ := valsetPacked_ok_present keccak peggyID valset x hx
  rw [valsetPacked_eq keccak peggyID valset r hR] at hx
  injection hx with hx
  subst hx
  rw [drop_methodID]
  simp only [List.append_assoc]
  exact second_word _ _ _ peggyID.len checkpoint_length

/-- The second 32-byte word of the packed batch arguments is the batch tag. -/
theorem batch_second_word (keccak : List Nat → Hash) (peggyID : Hash) (batch : OutgoingTxBatch)
    (y : List Nat) (hy : batchPacked keccak peggyID batch = .ok y) :
    ((y.drop 4).drop 32).take 32 = batchMethodName := by
  obtain ⟨hA, hF⟩ := batchPacked_ok_present keccak peggyID batch y hy
  rw [batchPacked_eq keccak peggyID batch hA hF] at hy
  injection hy with hy
  subst hy
  rw [drop_methodID]
  simp only [List.append_assoc]
  exact second_word _ _ _ peggyID.len batchMethodName_length

/-- The packer never returns an error for the arguments of the batch builder: it succeeds
when every amount and fee is present and panics otherwise. -/
theorem batchPacked_cases (keccak : List Nat → Hash) (peggyID : Hash) (batch : OutgoingTxBatch) :
    (∃ y, batchPacked keccak peggyID batch = .ok y)
      ∨ batchPacked keccak peggyID batch = .panic := by
  by_cases hA : ∀ tx ∈ batch.Transactions, tx.Erc20Token.Amount ≠ none
  · by_cases hF : ∀ tx ∈ batch.Transactions, tx.Erc20Fee.Amount ≠ none
    · exact Or.inl ⟨_, batchPacked_eq keccak peggyID batch hA hF⟩
    · refine Or.inr (batchPacked_absent keccak peggyID batch (Or.inr ?_))
      simpa using hF
  · refine Or.inr (batchPacked_absent keccak peggyID batch (Or.inl ?_))
    simpa using hA

/-- A value returned by the checkpoint builder is the hash of the packed call without its
first four bytes. -/
theorem EncodeValsetConfirm_returned (keccak : List Nat → Hash) (peggyID : Hash)
    (valset : Valset) (h : Hash) (hv : EncodeValsetConfirm keccak peggyID valset = .returned h) :
    ∃ x, valsetPacked keccak peggyID valset = .ok x ∧ h = keccak (x.drop 4) := by
  cases hR : valset.RewardAmount with
  | none => simp [EncodeValsetConfirm_unfold, hR] at hv
  | some r =>
    have hpk := valsetPacked_eq keccak peggyID valset r hR
    rw [EncodeValsetConfirm_of_ok keccak peggyID valset _ hpk] at hv
    injection hv with hv
    exact ⟨_, hpk, hv.symm⟩

/-- A value returned by the batch builder is the hash of the packed call without its first
four bytes; the zero hash of the error branch is never what is returned. -/
theorem EncodeTxBatchConfirm_returned (keccak : List Nat → Hash) (peggyID : Hash)
    (batch : OutgoingTxBatch) (h : Hash)
    (hb : EncodeTxBatchConfirm keccak peggyID batch = .returned h) :
    ∃ y, batchPacked keccak peggyID batch = .ok y ∧ h = keccak (y.drop 4) := by
  rcases batchPacked_cases keccak peggyID batch with ⟨y, hy⟩ | hp
  · rw [EncodeTxBatchConfirm_of_ok keccak peggyID batch y hy] at hb
    injection hb with hb
    exact ⟨y, hy, hb.symm⟩
  · simp [EncodeTxBatchConfirm_unfold, hp] at hb

/-- C3: whenever the two builders return commitments, for any peggyIDs, validator set and
batch, the second word of the bytes hashed by EncodeValsetConfirm is the "checkpoint" tag and
that of the bytes hashed by EncodeTxBatchConfirm is the "transactionBatch" tag, so the two
hashed byte strings differ; each commitment is the hash of its byte string, so equal
commitments would be a collision of the hash function on two different inputs. -/
theorem checkpoint_batch_domain_separation (keccak : List Nat → Hash) (peggyID peggyID' : Hash)
    (valset : Valset) (batch : OutgoingTxBatch) (h h' : Hash)
    (hv : EncodeValsetConfirm keccak peggyID valset = .returned h)
    (hb : EncodeTxBatchConfirm keccak peggyID' batch = .returned h') :
    wordAt ((valsetPacked keccak peggyID valset).bytes.drop 4) 1
        = ascii "checkpoint" ++ List.replicate 22 0
      ∧ wordAt ((batchPacked keccak peggyID' batch).bytes.drop 4) 1
        = ascii "transactionBatch" ++ List.replicate 16 0
      ∧ (valsetPacked keccak peggyID valset).bytes.drop 4
        ≠ (batchPacked keccak peggyID' batch).bytes.drop 4
      ∧ h = keccak ((valsetPacked keccak peggyID valset).bytes.drop 4)
      ∧ h' = keccak ((batchPacked keccak peggyID' batch).bytes.drop 4) := by
  obtain ⟨x, hx, hhx⟩ := EncodeValsetConfirm_returned keccak peggyID valset h hv
  obtain ⟨y, hy, hhy⟩ := EncodeTxBatchConfirm_returned keccak peggyID' batch h' hb
  have h1 := valset_second_word keccak peggyID valset x hx
  have h2 := batch_second_word keccak peggyID' batch y hy
  have hc : checkpoint = ascii "checkpoint" ++ List.replicate 22 0 := by decide
  have hm : batchMethodName = ascii "transactionBatch" ++ List.replicate 16 0 := by decide
  rw [hx, hy]
  simp only [PackResult.bytes, wordAt, Nat.mul_one]
  refine ⟨h1.trans hc, h2.trans hm, ?_, hhx, hhy⟩
  intro heq
  rw [heq, h2] at h1
  revert h1
  decide

set_option maxRecDepth 100000 in
/-- Domain separation at the sample set and the sample batch, same peggyID. -/
theorem checkpoint_batch_domain_separation_witness :
    (valsetPacked sampleKeccak samplePeggyID sampleValset).bytes.drop 4
      ≠ (batchPacked sampleKeccak samplePeggyID sampleBatch).bytes.drop 4 :=
  (checkpoint_batch_domain_separation sampleKeccak samplePeggyID samplePeggyID sampleValset
    sampleBatch (BytesToHash (wordBE 6)) (BytesToHash (wordBE 2))
    (by decide) (by decide)).2.2.1

/-! ## Injectivity of the word encodings -/

theorem ofDigits_replicate_zero (k : Nat) : Nat.ofDigits 256 (List.replicate k 0) = 0 := by
  induction k with
  | zero => simp
  | succ k ih => simp [List.replicate_succ, Nat.ofDigits_cons, ih]

/-- A word read back as a big-endian number is the number it was written from. -/
theorem ofDigits_wordBE (n : Nat) (h : n < 2 ^ 256) :
    Nat.ofDigits 256 (wordBE n).reverse = n := by
  rw [← encUint_eq_wordBE n h]
  simp [AbiSpec.encUint, List.reverse_append, Nat.ofDigits_append, Nat.ofDigits_digits,
    ofDigits_replicate_zero]

theorem wordBE_inj (a b : Nat) (ha : a < 2 ^ 256) (hb : b < 2 ^ 256)
    (h : wordBE a = wordBE b) : a = b := by
  have := congrArg (fun l => Nat.ofDigits 256 l.reverse) h
  simpa [ofDigits_wordBE a ha, ofDigits_wordBE b hb] using this

set_option maxRecDepth 10000 in
/-- The number written for a `uint64` converted through `int64`. -/
theorem int64_mod (x : Nat) (h : x < 2 ^ 64) :
    (int64 x % 2 ^ 256).toNat = if x < 2 ^ 63 then x else x + (2 ^ 256 - 2 ^ 64) := by
  unfold int64
  have hx : x % 2 ^ 64 = x := Nat.mod_eq_of_lt h
  rw [hx]
  split <;> omega

theorem U256Bytes_int64 (x : Nat) (h : x < 2 ^ 64) :
    U256Bytes (int64 x) = wordBE (if x < 2 ^ 63 then x else x + (2 ^ 256 - 2 ^ 64)) := by
  rw [U256Bytes, int64_mod x h]

theorem U256Bytes_int64_inj (x y : Nat) (hx : x < 2 ^ 64) (hy : y < 2 ^ 64)
    (h : U256Bytes (int64 x) = U256Bytes (int64 y)) : x = y := by
  rw [U256Bytes_int64 x hx, U256Bytes_int64 y hy] at h
  have := wordBE_inj _ _ (by split <;> omega) (by split <;> omega) h
  split at this <;> split at this <;> omega

theorem flatten_words_inj (l1 : List (List Nat)) : ∀ l2 : List (List Nat),
    (∀ w ∈ l1, w.length = 32) → (∀ w ∈ l2, w.length = 32) → l1.flatten = l2.flatten →
    l1 = l2 := by
  induction l1 with
  | nil =>
    intro l2 _ h2 h
    cases l2 with
    | nil => rfl
    | cons w l2 =>
      have hw := h2 w (by simp)
      have := congrArg List.length h
      simp only [List.flatten_nil, List.flatten_cons, List.length_nil, List.length_append] at this
      omega
  | cons v l1 ih =>
    intro l2 h1 h2 h
    cases l2 with
    | nil =>
      have hv := h1 v (by simp)
      have := congrArg List.length h
      simp only [List.flatten_nil, List.flatten_cons, List.length_nil, List.length_append] at this
      omega
    | cons w l2 =>
      have hv := h1 v (by simp)
      have hw := h2 w (by simp)
      simp only [List.flatten_cons] at h
      obtain ⟨e1, e2⟩ := List.append_inj h (by rw [hv, hw])
      rw [e1, ih l2 (fun u hu => h1 u (by simp [hu])) (fun u hu => h2 u (by simp [hu])) e2]

/-- Members whose address words and power words agree position by position have the same
parsed addresses and powers. -/
theorem parsed_eq_of_words_eq (l1 : List BridgeValidator) : ∀ l2 : List BridgeValidator,
    (∀ m ∈ l1, m.Power < 2 ^ 64) → (∀ m ∈ l2, m.Power < 2 ^ 64) →
    l1.map (fun m => LeftPadBytes (HexToAddress m.EthereumAddress) 32)
      = l2.map (fun m => LeftPadBytes (HexToAddress m.EthereumAddress) 32) →
    l1.map (fun m => U256Bytes (int64 m.Power)) = l2.map (fun m => U256Bytes (int64 m.Power)) →
    l1.map (fun m => (HexToAddress m.EthereumAddress, m.Power))
      = l2.map (fun m => (HexToAddress m.EthereumAddress, m.Power)) := by
  induction l1 with
  | nil =>
    intro l2 _ _ ha _
    cases l2 with
    | nil => rfl
    | cons w l2 => simp at ha
  | cons v l1 ih =>
    intro l2 h1 h2 ha hp
    cases l2 with
    | nil => simp at ha
    | cons w l2 =>
      simp only [List.map_cons, List.cons.injEq] at ha hp ⊢
      obtain ⟨ha1, ha2⟩ := ha
      obtain ⟨hp1, hp2⟩ := hp
      rw [LeftPadBytes_address, LeftPadBytes_address] at ha1
      refine ⟨?_, ih l2 (fun u hu => h1 u (by simp [hu])) (fun u hu => h2 u (by simp [hu]))
        ha2 hp2⟩
      rw [List.append_cancel_left ha1,
        U256Bytes_int64_inj _ _ (h1 v (by simp)) (h2 w (by simp)) hp1]

/-! ## Order of the members -/

/-- Two validator sets of the same size that differ at most in their members and pack to the
same argument bytes have the same parsed addresses and powers, position by position. -/
theorem parsedMembers_eq_of_payload_eq (keccak : List Nat → Hash) (peggyID : Hash)
    (v w : Valset) (r : Int) (hv : v.RewardAmount = some r) (hw : w.RewardAmount = some r)
    (hlen : v.Members.length = w.Members.length)
    (hN : v.Nonce = w.Nonce) (hT : v.RewardToken = w.RewardToken)
    (hPv : ∀ m ∈ v.Members, m.Power < 2 ^ 64) (hPw : ∀ m ∈ w.Members, m.Power < 2 ^ 64)
    (h : (valsetPacked keccak peggyID v).bytes.drop 4
      = (valsetPacked keccak peggyID w).bytes.drop 4) :
    v.parsedMembers = w.parsedMembers := by
  rw [valsetPacked_eq keccak peggyID v r hv, valsetPacked_eq keccak peggyID w r hw] at h
  simp only [PackResult.bytes, drop_methodID, hlen, hN, hT, List.append_assoc,
    List.append_cancel_left_eq] at h
  have hfv : ((v.Members.map
      (fun m => LeftPadBytes (HexToAddress m.EthereumAddress) 32)).flatten).length
      = 32 * v.Members.length :=
    length_flatten_words _ _ (fun m _ => by simp [LeftPadBytes, HexToAddress_length])
  have hfw : ((w.Members.map
      (fun m => LeftPadBytes (HexToAddress m.EthereumAddress) 32)).flatten).length
      = 32 * w.Members.length :=
    length_flatten_words _ _ (fun m _ => by simp [LeftPadBytes, HexToAddress_length])
  obtain ⟨ha, hp⟩ := List.append_inj h (by rw [hfv, hfw, hlen])
  have hp' := List.append_cancel_left hp
  have ha' := flatten_words_inj _ _
    (by simp [LeftPadBytes, HexToAddress_length]) (by simp [LeftPadBytes, HexToAddress_length]) ha
  have hp'' := flatten_words_inj _ _
    (by simp [U256Bytes_length]) (by simp [U256Bytes_length]) hp'
  exact parsed_eq_of_words_eq _ _ hPv hPw ha' hp''

/-- C4: whenever EncodeValsetConfirm returns a commitment for a validator set (powers of 64
bits), replacing the member list by a permutation of it that is a different sequence of
members, a member being its 20-byte address and its power, changes the byte string that is
hashed. The commitment of each of the two sets is the hash of its byte string, so the
commitments can only be equal if the hash function collides on these two different strings. -/
theorem order_sensitivity_on_parsed_members (keccak : List Nat → Hash) (peggyID : Hash)
    (valset : Valset) (members' : List BridgeValidator) (h : Hash)
    (hret : EncodeValsetConfirm keccak peggyID valset = .returned h)
    (hP : ∀ m ∈ valset.Members, m.Power < 2 ^ 64)
    (hperm : members'.Perm valset.Members)
    (hne : ({ valset with Members := members' } : Valset).parsedMembers ≠ valset.parsedMembers) :
    (valsetPacked keccak peggyID { valset with Members := members' }).bytes.drop 4
        ≠ (valsetPacked keccak peggyID valset).bytes.drop 4
      ∧ h = keccak ((valsetPacked keccak peggyID valset).bytes.drop 4)
      ∧ EncodeValsetConfirm keccak peggyID { valset with Members := members' }
        = .returned (keccak
            ((valsetPacked keccak peggyID { valset with Members := members' }).bytes.drop 4)) := by
  obtain ⟨x, hx, hhx⟩ := EncodeValsetConfirm_returned keccak peggyID valset h hret
  obtain ⟨r, hR⟩ := valsetPacked_ok_present keccak peggyID valset x hx
  have hP' : ∀ m ∈ members', m.Power < 2 ^ 64 := fun m hm => hP m (hperm.mem_iff.mp hm)
  refine ⟨?_, ?_, ?_⟩
  · intro heq
    exact hne (parsedMembers_eq_of_payload_eq keccak peggyID { valset with Members := members' }
      valset r hR hR hperm.length_eq rfl rfl hP' hP heq)
  · rw [hhx, hx]
    rfl
  · have hpk := valsetPacked_eq keccak peggyID { valset with Members := members' } r hR
    rw [EncodeValsetConfirm_of_ok keccak peggyID _ _ hpk, hpk]
    rfl

set_option maxRecDepth 100000 in
/-- Reversing the two members of the sample set changes the hashed bytes. -/
theorem order_sensitivity_on_parsed_members_witness :
    (valsetPacked sampleKeccak samplePeggyID
        { sampleValset with Members := sampleValset.Members.reverse }).bytes.drop 4
      ≠ (valsetPacked sampleKeccak samplePeggyID sampleValset).bytes.drop 4 :=
  (order_sensitivity_on_parsed_members sampleKeccak samplePeggyID sampleValset
    sampleValset.Members.reverse (BytesToHash (wordBE 6)) (by decide) (by decide)
    (List.reverse_perm _) (by decide)).1

/-! ## The discarded selector -/

theorem valsetPacked_selector (keccak : List Nat → Hash) (peggyID : Hash) (valset : Valset)
    (x : List Nat) (hx : valsetPacked keccak peggyID valset = .ok x) :
    x = checkpointMethod.ID keccak ++ x.drop 4 := by
  obtain ⟨r, hR⟩ := valsetPacked_ok_present keccak peggyID valset x hx
  rw [valsetPacked_eq keccak peggyID valset r hR] at hx
  injection hx with hx
  rw [← hx, drop_methodID]

theorem batchPacked_selector (keccak : List Nat → Hash) (peggyID : Hash)
    (batch : OutgoingTxBatch) (y : List Nat) (hy : batchPacked keccak peggyID batch = .ok y) :
    y = transactionBatchMethod.ID keccak ++ y.drop 4 := by
  obtain ⟨hA, hF⟩ := batchPacked_ok_present keccak peggyID batch y hy
  rw [batchPacked_eq keccak peggyID batch hA hF] at hy
  injection hy with hy
  rw [← hy, drop_methodID]

/-- C6: whenever packing succeeds with the full encoded call `x`, that call is the 4-byte
selector of "checkpoint" (resp. "transactionBatch") followed by `x.drop 4`, and the builder
returns the hash of exactly `x.drop 4`: the first 4 bytes are dropped and every other byte of
the call is hashed unchanged. -/
theorem selector_discard (keccak : List Nat → Hash) (peggyID : Hash) :
    (∀ (valset : Valset) (x : List Nat), valsetPacked keccak peggyID valset = .ok x →
        x = checkpointMethod.ID keccak ++ x.drop 4
        ∧ (checkpointMethod.ID keccak).length = 4
        ∧ checkpointMethod.ID keccak
          = (keccak (ascii "checkpoint(bytes32,bytes32,uint256,address[],uint256[],uint256,address)")).bytes.take 4
        ∧ EncodeValsetConfirm keccak peggyID valset = .returned (keccak (x.drop 4)))
      ∧ (∀ (batch : OutgoingTxBatch) (y : List Nat), batchPacked keccak peggyID batch = .ok y →
        y = transactionBatchMethod.ID keccak ++ y.drop 4
        ∧ (transactionBatchMethod.ID keccak).length = 4
        ∧ transactionBatchMethod.ID keccak
          = (keccak (ascii "transactionBatch(bytes32,bytes32,uint256[],address[],uint256[],uint256,address,uint256)")).bytes.take 4
        ∧ EncodeTxBatchConfirm keccak peggyID batch = .returned (keccak (y.drop 4))) := by
  constructor
  · intro valset x hx
    exact ⟨valsetPacked_selector keccak peggyID valset x hx, methodID_length _ _, rfl,
      EncodeValsetConfirm_of_ok keccak peggyID valset x hx⟩
  · intro batch y hy
    exact ⟨batchPacked_selector keccak peggyID batch y hy, methodID_length _ _, rfl,
      EncodeTxBatchConfirm_of_ok keccak peggyID batch y hy⟩

set_option maxRecDepth 100000 in
/-- Selector discard at the sample set and the sample batch. -/
theorem selector_discard_witness :
    EncodeValsetConfirm sampleKeccak samplePeggyID sampleValset
        = .returned (sampleKeccak
            ((valsetPacked sampleKeccak samplePeggyID sampleValset).bytes.drop 4))
      ∧ EncodeTxBatchConfirm sampleKeccak samplePeggyID sampleBatch
        = .returned (sampleKeccak
            ((batchPacked sampleKeccak samplePeggyID sampleBatch).bytes.drop 4)) :=
  ⟨((selector_discard sampleKeccak samplePeggyID).1 sampleValset
      (valsetPacked sampleKeccak samplePeggyID sampleValset).bytes (by decide)).2.2.2,
    ((selector_discard sampleKeccak samplePeggyID).2 sampleBatch
      (batchPacked sampleKeccak samplePeggyID sampleBatch).bytes (by decide)).2.2.2⟩

/-! ## Integers out of range, and the missing reward amount -/

theorem U256Bytes_emod (x : Int) : U256Bytes (x % 2 ^ 256) = U256Bytes x := by
  simp [U256Bytes, Int.emod_emod_of_dvd]

theorem getD_map_emod (x : Option Int) :
    U256Bytes ((x.map (fun a => a % 2 ^ 256)).getD 0) = U256Bytes (x.getD 0) := by
  cases x with
  | none => rfl
  | some a => exact U256Bytes_emod a

/-- Packing a batch and packing the batch with its amounts and fees reduced modulo 2^256 give
the same bytes. -/
theorem batchPacked_reduced (keccak : List Nat → Hash) (peggyID : Hash) (batch : OutgoingTxBatch)
    (hA : ∀ tx ∈ batch.Transactions, tx.Erc20Token.Amount ≠ none)
    (hF : ∀ tx ∈ batch.Transactions, tx.Erc20Fee.Amount ≠ none) :
    batchPacked keccak peggyID batch.reduced = batchPacked keccak peggyID batch := by
  have hA' : ∀ tx ∈ batch.reduced.Transactions, tx.Erc20Token.Amount ≠ none := by
    intro tx htx
    simp only [OutgoingTxBatch.reduced, List.mem_map] at htx
    obtain ⟨t, ht, rfl⟩ := htx
    have := hA t ht
    simpa [OutgoingTransferTx.reduced] using this
  have hF' : ∀ tx ∈ batch.reduced.Transactions, tx.Erc20Fee.Amount ≠ none := by
    intro tx htx
    simp only [OutgoingTxBatch.reduced, List.mem_map] at htx
    obtain ⟨t, ht, rfl⟩ := htx
    have := hF t ht
    simpa [OutgoingTransferTx.reduced] using this
  rw [batchPacked_eq keccak peggyID batch hA hF,
    batchPacked_eq keccak peggyID batch.reduced hA' hF']
  simp only [OutgoingTxBatch.reduced, OutgoingTransferTx.reduced, List.map_map,
    Function.comp_def, List.length_map, getD_map_emod]

/-! ## The packer with the sign check -/

theorem packElemsStrict_address (l : List (List Nat)) : ∀ ret : List Nat,
    packElemsStrict .AddressTy (l.map .byteArray) ret
      = .ok (ret ++ (l.map (fun a => LeftPadBytes a 32)).flatten) := by
  induction l with
  | nil => intro ret; simp [packElemsStrict]
  | cons a l ih => intro ret; simp [packElemsStrict, packElemStrict, packElem, ih]

theorem packStrict_addressSlice (l : List (List Nat)) :
    AbiType.packStrict (.SliceTy .AddressTy) (.addressSlice l)
      = .ok (packNum l.length ++ (l.map (fun a => LeftPadBytes a 32)).flatten) := by
  simp [AbiType.packStrict, GoValue.elems, AbiType.kind, packElemsStrict_address]

theorem packStrict_bytes32 (bs : List Nat) (h : bs.length = 32) :
    AbiType.packStrict (.FixedBytesTy 32) (.byteArray bs) = .ok bs := by
  simp [AbiType.packStrict, packElemStrict, packElem, h, RightPadBytes]

theorem packStrict_address (a : List Nat) :
    AbiType.packStrict .AddressTy (.byteArray a) = .ok (LeftPadBytes a 32) := by
  simp [AbiType.packStrict, packElemStrict, packElem]

theorem packStrict_uint_negative (x : Int) (hx : x < 0) :
    AbiType.packStrict (.UintTy 256) (.bigInt (some x)) = .error errInvalidSign := by
  simp [AbiType.packStrict, packElemStrict, hx]

theorem packStrict_uint_nonnegative (x : Int) (hx : 0 ≤ x) :
    AbiType.packStrict (.UintTy 256) (.bigInt (some x)) = .ok (U256Bytes x) := by
  have : ¬ x < 0 := not_lt.mpr hx
  simp [AbiType.packStrict, packElemStrict, packElem, this]

/-- A slice of present big integers none of which is negative is packed by the checking
packer as by the other one. -/
theorem packElemsStrict_nonnegative {α : Type} (size : Nat) (g : α → Option Int) (l : List α)
    (h : ∀ m ∈ l, ∃ x, g m = some x ∧ 0 ≤ x) : ∀ ret : List Nat,
    packElemsStrict (.UintTy size) (l.map (fun m => .bigInt (g m))) ret
      = .ok (ret ++ (l.map (fun m => U256Bytes ((g m).getD 0))).flatten) := by
  induction l with
  | nil => intro ret; simp [packElemsStrict]
  | cons a l ih =>
    intro ret
    obtain ⟨x, hx, h0⟩ := h a (by simp)
    have hn : ¬ x < 0 := not_lt.mpr h0
    have ih' := ih (fun m hm => h m (by simp [hm]))
    simp [packElemsStrict, packElemStrict, packElem, hx, hn, ih']

/-- A slice of present big integers one of which is negative makes the checking packer return
the sign error. -/
theorem packElemsStrict_negative {α : Type} (size : Nat) (g : α → Option Int) (l : List α)
    (hpres : ∀ m ∈ l, g m ≠ none) (hneg : ∃ m ∈ l, ∃ x, g m = some x ∧ x < 0) :
    ∀ ret : List Nat,
    packElemsStrict (.UintTy size) (l.map (fun m => .bigInt (g m))) ret
      = .error errInvalidSign := by
  induction l with
  | nil => simp at hneg
  | cons a l ih =>
    intro ret
    obtain ⟨x, hx⟩ := Option.ne_none_iff_exists'.mp (hpres a (by simp))
    by_cases hlt : x < 0
    · simp [packElemsStrict, packElemStrict, hx, hlt]
    · have hneg' : ∃ m ∈ l, ∃ y, g m = some y ∧ y < 0 := by
        obtain ⟨m, hm, y, hy, hy0⟩ := hneg
        rcases List.mem_cons.mp hm with rfl | hm'
        · rw [hx] at hy
          cases hy
          exact absurd hy0 hlt
        · exact ⟨m, hm', y, hy, hy0⟩
      have ih' := ih (fun m hm => hpres m (by simp [hm])) hneg'
      simp [packElemsStrict, packElemStrict, packElem, hx, hlt, ih']

theorem packStrict_bigIntSlice_nonnegative {α : Type} (g : α → Option Int) (l : List α)
    (h : ∀ m ∈ l, ∃ x, g m = some x ∧ 0 ≤ x) :
    AbiType.packStrict (.SliceTy (.UintTy 256)) (.bigIntSlice (l.map g))
      = .ok (packNum l.length ++ (l.map (fun m => U256Bytes ((g m).getD 0))).flatten) := by
  have := packElemsStrict_nonnegative 256 g l h (packNum l.length)
  simp only [AbiType.packStrict, GoValue.elems, AbiType.kind, List.map_map, List.length_map,
    if_true]
  exact this

theorem packStrict_bigIntSlice_negative {α : Type} (g : α → Option Int) (l : List α)
    (hpres : ∀ m ∈ l, g m ≠ none) (hneg : ∃ m ∈ l, ∃ x, g m = some x ∧ x < 0) :
    AbiType.packStrict (.SliceTy (.UintTy 256)) (.bigIntSlice (l.map g))
      = .error errInvalidSign := by
  have := packElemsStrict_negative 256 g l hpres hneg (packNum l.length)
  simp only [AbiType.packStrict, GoValue.elems, AbiType.kind, List.map_map, List.length_map,
    if_true]
  exact this

/-- Present big integers are all non-negative or one of them is negative. -/
theorem nonnegative_or_negative {α : Type} (g : α → Option Int) (l : List α)
    (hpres : ∀ m ∈ l, g m ≠ none) :
    (∀ m ∈ l, ∃ x, g m = some x ∧ 0 ≤ x) ∨ (∃ m ∈ l, ∃ x, g m = some x ∧ x < 0) := by
  by_cases h : ∃ m ∈ l, ∃ x, g m = some x ∧ x < 0
  · exact Or.inr h
  · refine Or.inl (fun m hm => ?_)
    obtain ⟨x, hx⟩ := Option.ne_none_iff_exists'.mp (hpres m hm)
    refine ⟨x, hx, ?_⟩
    by_contra hlt
    exact h ⟨m, hm, x, hx, not_le.mp hlt⟩

/-- With a negative reward amount the checking packer returns the sign error to the
checkpoint builder. -/
theorem valsetPackStrict_negative (keccak : List Nat → Hash) (peggyID : Hash) (valset : Valset)
    (r : Int) (hneg : r < 0) :
    PackStrict keccak ValsetCheckpointABI "checkpoint" (valsetArgs peggyID valset (some r))
      = .error errInvalidSign := by
  by_cases hn : int64 valset.Nonce < 0
  · simp [PackStrict, ValsetCheckpointABI, checkpointMethod, valsetArgs, List.find?,
      Arguments.PackStrict, packLoopStrict, packStrict_bytes32 _ peggyID.len,
      packStrict_bytes32 _ checkpoint_length, packStrict_uint_negative _ hn, isDynamicType,
      getTypeSize]
  · have hn' := packStrict_uint_nonnegative _ (not_lt.mp hn)
    have hr := packStrict_uint_negative r hneg
    rcases nonnegative_or_negative (fun m : BridgeValidator => some (int64 m.Power))
        valset.Members (fun m _ => by simp) with hp | hp
    · have hs := packStrict_bigIntSlice_nonnegative
        (fun m : BridgeValidator => some (int64 m.Power)) valset.Members hp
      simp [PackStrict, ValsetCheckpointABI, checkpointMethod, valsetArgs, List.find?,
        Arguments.PackStrict, packLoopStrict, packStrict_bytes32 _ peggyID.len,
        packStrict_bytes32 _ checkpoint_length, hn', packStrict_addressSlice, hs, hr,
        isDynamicType, getTypeSize]
    · have hs := packStrict_bigIntSlice_negative
        (fun m : BridgeValidator => some (int64 m.Power)) valset.Members
        (fun m _ => by simp) hp
      simp [PackStrict, ValsetCheckpointABI, checkpointMethod, valsetArgs, List.find?,
        Arguments.PackStrict, packLoopStrict, packStrict_bytes32 _ peggyID.len,
        packStrict_bytes32 _ checkpoint_length, hn', packStrict_addressSlice, hs,
        isDynamicType, getTypeSize]

/-- With every amount and fee present and one of them negative the checking packer returns
the sign error to the batch builder. -/
theorem batchPackStrict_negative (keccak : List Nat → Hash) (peggyID : Hash)
    (batch : OutgoingTxBatch)
    (hA : ∀ tx ∈ batch.Transactions, tx.Erc20Token.Amount ≠ none)
    (hF : ∀ tx ∈ batch.Transactions, tx.Erc20Fee.Amount ≠ none)
    (hneg : (∃ tx ∈ batch.Transactions, ∃ a, tx.Erc20Token.Amount = some a ∧ a < 0)
      ∨ (∃ tx ∈ batch.Transactions, ∃ f, tx.Erc20Fee.Amount = some f ∧ f < 0)) :
    PackStrict keccak OutgoingBatchTxConfirmABI "transactionBatch" (batchArgs peggyID batch)
      = .error errInvalidSign := by
  rcases nonnegative_or_negative (fun tx : OutgoingTransferTx => tx.Erc20Token.Amount)
      batch.Transactions hA with ha | ha
  · have hf : ∃ tx ∈ batch.Transactions, ∃ f, tx.Erc20Fee.Amount = some f ∧ f < 0 := by
      rcases hneg with h | h
      · obtain ⟨tx, htx, a, ha1, ha2⟩ := h
        obtain ⟨x, hx, hx0⟩ := ha tx htx
        rw [ha1] at hx
        cases hx
        omega
      · exact h
    have hs1 := packStrict_bigIntSlice_nonnegative
      (fun tx : OutgoingTransferTx => tx.Erc20Token.Amount) batch.Transactions ha
    have hs2 := packStrict_bigIntSlice_negative
      (fun tx : OutgoingTransferTx => tx.Erc20Fee.Amount) batch.Transactions hF hf
    simp [PackStrict, OutgoingBatchTxConfirmABI, transactionBatchMethod, batchArgs, List.find?,
      Arguments.PackStrict, packLoopStrict, packStrict_bytes32 _ peggyID.len,
      packStrict_bytes32 _ batchMethodName_length, packStrict_addressSlice, hs1, hs2,
      isDynamicType, getTypeSize]
  · have hs1 := packStrict_bigIntSlice_negative
      (fun tx : OutgoingTransferTx => tx.Erc20Token.Amount) batch.Transactions hA ha
    simp [PackStrict, OutgoingBatchTxConfirmABI, transactionBatchMethod, batchArgs, List.find?,
      Arguments.PackStrict, packLoopStrict, packStrict_bytes32 _ peggyID.len,
      packStrict_bytes32 _ batchMethodName_length, hs1, isDynamicType, getTypeSize]

/-- C7 (amended): a negative integer field does not make the builders fail with an encoding
error, except the checkpoint builder under a packer that checks the sign. For a validator
set whose reward amount is present and negative, EncodeValsetConfirm returns the commitment
of the set with the reward amount reduced modulo 2^256; under the packer that rejects a
negative value (go-ethereum from v1.16.0 on) it panics with the packing error. For a batch
whose amounts and fees are all present and one of which is negative, EncodeTxBatchConfirm
returns the commitment of the batch with its amounts and fees reduced modulo 2^256; under
the packer that rejects a negative value it returns the all-zero hash. -/
theorem out_of_range_integers_wrap (keccak : List Nat → Hash) (peggyID : Hash) :
    (∀ (valset : Valset) (r : Int), valset.RewardAmount = some r → r < 0 →
        valsetPacked keccak peggyID valset
          = valsetPacked keccak peggyID { valset with RewardAmount := some (r % 2 ^ 256) }
        ∧ EncodeValsetConfirm keccak peggyID valset = .returned (keccak
            ((valsetPacked keccak peggyID
                { valset with RewardAmount := some (r % 2 ^ 256) }).bytes.drop 4))
        ∧ EncodeValsetConfirmWith PackStrict keccak peggyID valset
          = .panicked ("error packing checkpoint: " ++ errInvalidSign))
      ∧ (∀ batch : OutgoingTxBatch,
        (∀ tx ∈ batch.Transactions, tx.Erc20Token.Amount ≠ none) →
        (∀ tx ∈ batch.Transactions, tx.Erc20Fee.Amount ≠ none) →
        ((∃ tx ∈ batch.Transactions, ∃ a, tx.Erc20Token.Amount = some a ∧ a < 0)
          ∨ (∃ tx ∈ batch.Transactions, ∃ f, tx.Erc20Fee.Amount = some f ∧ f < 0)) →
        batchPacked keccak peggyID batch = batchPacked keccak peggyID batch.reduced
        ∧ EncodeTxBatchConfirm keccak peggyID batch = .returned (keccak
            ((batchPacked keccak peggyID batch.reduced).bytes.drop 4))
        ∧ EncodeTxBatchConfirmWith PackStrict keccak peggyID batch = .returned Hash.zero) := by
  constructor
  · intro valset r hR hneg
    have h1 := valsetPacked_eq keccak peggyID valset r hR
    have h2 := valsetPacked_eq keccak peggyID
      { valset with RewardAmount := some (r % 2 ^ 256) } (r % 2 ^ 256) rfl
    rw [U256Bytes_emod] at h2
    have h12 : valsetPacked keccak peggyID valset
        = valsetPacked keccak peggyID { valset with RewardAmount := some (r % 2 ^ 256) } := by
      rw [h1, h2]
    refine ⟨h12, ?_, ?_⟩
    · rw [EncodeValsetConfirm_of_ok keccak peggyID valset _ h1, ← h12, h1]
      rfl
    · simp only [EncodeValsetConfirmWith, hR,
        valsetPackStrict_negative keccak peggyID valset r hneg, valsetAfterPack]
  · intro batch hA hF hneg
    have h1 := batchPacked_eq keccak peggyID batch hA hF
    have h12 := batchPacked_reduced keccak peggyID batch hA hF
    refine ⟨h12.symm, ?_, ?_⟩
    · rw [EncodeTxBatchConfirm_of_ok keccak peggyID batch _ h1, h12, h1]
      rfl
    · simp only [EncodeTxBatchConfirmWith,
        batchPackStrict_negative keccak peggyID batch hA hF hneg, batchAfterPack]

set_option maxRecDepth 100000 in
/-- Reward amount -1 and transaction amount -1 under both packers. -/
theorem out_of_range_integers_wrap_witness :
    EncodeValsetConfirmWith PackStrict sampleKeccak samplePeggyID
        (sampleValsetWithReward (some (-1)))
        = .panicked ("error packing checkpoint: " ++ errInvalidSign)
      ∧ EncodeTxBatchConfirmWith PackStrict sampleKeccak samplePeggyID
          (sampleBatchWithAmount (some (-1))) = .returned Hash.zero :=
  ⟨((out_of_range_integers_wrap sampleKeccak samplePeggyID).1
      (sampleValsetWithReward (some (-1))) (-1) rfl (by decide)).2.2,
    ((out_of_range_integers_wrap sampleKeccak samplePeggyID).2
      (sampleBatchWithAmount (some (-1))) (by decide) (by decide)
      (Or.inl (by decide))).2.2⟩

set_option maxRecDepth 100000 in
/-- C7 (as stated) fails at a reward amount of -1 and at a transaction amount of -1. With
the packer that does not check the sign no error is reported: the word of the field holds
2^256 - 1 (32 bytes 0xff) and each builder returns the hash of the bytes packed so. With the
packer that checks the sign EncodeTxBatchConfirm still does not fail: it returns the
all-zero hash as its value. -/
theorem out_of_range_counterexample :
    wordAt ((valsetPacked sampleKeccak samplePeggyID
          (sampleValsetWithReward (some (-1)))).bytes.drop 4) 5 = List.replicate 32 255
      ∧ EncodeValsetConfirm sampleKeccak samplePeggyID (sampleValsetWithReward (some (-1)))
        = .returned (sampleKeccak ((valsetPacked sampleKeccak samplePeggyID
            (sampleValsetWithReward (some (-1)))).bytes.drop 4))
      ∧ wordAt ((batchPacked sampleKeccak samplePeggyID
          (sampleBatchWithAmount (some (-1)))).bytes.drop 4) 9 = List.replicate 32 255
      ∧ EncodeTxBatchConfirm sampleKeccak samplePeggyID (sampleBatchWithAmount (some (-1)))
        = .returned (sampleKeccak ((batchPacked sampleKeccak samplePeggyID
            (sampleBatchWithAmount (some (-1)))).bytes.drop 4))
      ∧ EncodeTxBatchConfirm sampleKeccak samplePeggyID (sampleBatchWithAmount (some (-1)))
        ≠ .returned Hash.zero
      ∧ EncodeTxBatchConfirmWith PackStrict sampleKeccak samplePeggyID
          (sampleBatchWithAmount (some (-1))) = .returned Hash.zero := by
  refine ⟨by decide, by decide, by decide, by decide, by decide, by decide⟩

/-- C8: with the reward amount missing, EncodeValsetConfirm panics with the message of its
nil check and returns no commitment; with a reward amount of zero it returns one, so the two
outcomes differ. -/
theorem nil_reward_panics (keccak : List Nat → Hash) (peggyID : Hash) (valset : Valset)
    (hR : valset.RewardAmount = none) :
    EncodeValsetConfirm keccak peggyID valset
        = .panicked "invalid reward amount passed in valset GetCheckpoint!"
      ∧ (∀ h : Hash, EncodeValsetConfirm keccak peggyID valset ≠ .returned h)
      ∧ EncodeValsetConfirm keccak peggyID { valset with RewardAmount := some 0 }
        = .returned (keccak
            ((valsetPacked keccak peggyID { valset with RewardAmount := some 0 }).bytes.drop 4))
      ∧ EncodeValsetConfirm keccak peggyID valset
        ≠ EncodeValsetConfirm keccak peggyID { valset with RewardAmount := some 0 } := by
  have hp : EncodeValsetConfirm keccak peggyID valset
      = .panicked "invalid reward amount passed in valset GetCheckpoint!" := by
    simp only [EncodeValsetConfirm_unfold, hR]
  have h0 := valsetPacked_eq keccak peggyID { valset with RewardAmount := some 0 } 0 rfl
  have hz : EncodeValsetConfirm keccak peggyID { valset with RewardAmount := some 0 }
      = .returned (keccak
          ((valsetPacked keccak peggyID { valset with RewardAmount := some 0 }).bytes.drop 4)) := by
    rw [EncodeValsetConfirm_of_ok keccak peggyID _ _ h0, h0]
    rfl
  refine ⟨hp, ?_, hz, ?_⟩
  · intro h heq
    rw [hp] at heq
    cases heq
  · rw [hp, hz]
    intro heq
    cases heq

/-- The sample set with its reward amount removed. -/
theorem nil_reward_panics_witness :
    EncodeValsetConfirm sampleKeccak samplePeggyID (sampleValsetWithReward none)
      = .panicked "invalid reward amount passed in valset GetCheckpoint!" :=
  (nil_reward_panics sampleKeccak samplePeggyID (sampleValsetWithReward none) rfl).1

/-! ## The conversions through `int64` -/

set_option maxRecDepth 100000 in
/-- C9 at the failing input: for a member of power 2^63 the power word of the hashed bytes
(word 10 of a one-member checkpoint) is the word of 2^256 - 2^63, not the word of 2^63. -/
theorem power_word_high_bit :
    wordAt ((valsetPacked sampleKeccak samplePeggyID highPowerValset).bytes.drop 4) 10
        = wordBE (2 ^ 256 - 2 ^ 63)
      ∧ wordAt ((valsetPacked sampleKeccak samplePeggyID highPowerValset).bytes.drop 4) 10
        ≠ wordBE (2 ^ 63)
      ∧ EncodeValsetConfirm sampleKeccak samplePeggyID highPowerValset
        = .returned (sampleKeccak
            ((valsetPacked sampleKeccak samplePeggyID highPowerValset).bytes.drop 4)) := by
  refine ⟨by decide, by decide, by decide⟩

set_option maxRecDepth 100000 in
/-- C10 at the failing input: for a valset nonce of 2^63 word 2 of the checkpoint bytes is the
word of 2^256 - 2^63; for a batch nonce of 2^63 and a batch timeout of 2^64 - 1 the head words
5 and 7 of the batch bytes are the words of 2^256 - 2^63 and 2^256 - 1. -/
theorem nonce_word_high_bit :
    wordAt ((valsetPacked sampleKeccak samplePeggyID highNonceValset).bytes.drop 4) 2
        = wordBE (2 ^ 256 - 2 ^ 63)
      ∧ wordAt ((valsetPacked sampleKeccak samplePeggyID highNonceValset).bytes.drop 4) 2
        ≠ wordBE (2 ^ 63)
      ∧ wordAt ((batchPacked sampleKeccak samplePeggyID highNonceBatch).bytes.drop 4) 5
        = wordBE (2 ^ 256 - 2 ^ 63)
      ∧ wordAt ((batchPacked sampleKeccak samplePeggyID highNonceBatch).bytes.drop 4) 5
        ≠ wordBE (2 ^ 63)
      ∧ wordAt ((batchPacked sampleKeccak samplePeggyID highNonceBatch).bytes.drop 4) 7
        = wordBE (2 ^ 256 - 1)
      ∧ wordAt ((batchPacked sampleKeccak samplePeggyID highNonceBatch).bytes.drop 4) 7
        ≠ wordBE (2 ^ 64 - 1) := by
  refine ⟨by decide, by decide, by decide, by decide, by decide, by decide⟩

/-! ## Well-formed input never fails -/

/-- The packer never returns an error for the arguments of the checkpoint builder. -/
theorem valsetPacked_cases (keccak : List Nat → Hash) (peggyID : Hash) (valset : Valset) :
    (∃ x, valsetPacked keccak peggyID valset = .ok x)
      ∨ valsetPacked keccak peggyID valset = .panic := by
  cases hR : valset.RewardAmount with
  | none => exact Or.inr (valsetPacked_nil keccak peggyID valset hR)
  | some r => exact Or.inl ⟨_, valsetPacked_eq keccak peggyID valset r hR⟩

/-- C11: for a validator set whose reward amount is present and in [0, 2^256), and for a batch
whose amounts and fees are all present and in [0, 2^256), packing succeeds and the builder
returns the hash of the packed call without its selector; and for no input at all does the
packer hand an error to either builder, so the panic of line 112 and the zero hash of line
165 are never reached. -/
theorem builders_never_fail_on_well_formed_input (keccak : List Nat → Hash) (peggyID : Hash) :
    (∀ (valset : Valset) (r : Int), valset.RewardAmount = some r → 0 ≤ r → r < 2 ^ 256 →
        valsetPacked keccak peggyID valset = .ok (valsetPacked keccak peggyID valset).bytes
        ∧ EncodeValsetConfirm keccak peggyID valset
          = .returned (keccak ((valsetPacked keccak peggyID valset).bytes.drop 4)))
      ∧ (∀ batch : OutgoingTxBatch,
        (∀ tx ∈ batch.Transactions,
          ∃ a, tx.Erc20Token.Amount = some a ∧ 0 ≤ a ∧ a < 2 ^ 256) →
        (∀ tx ∈ batch.Transactions,
          ∃ f, tx.Erc20Fee.Amount = some f ∧ 0 ≤ f ∧ f < 2 ^ 256) →
        batchPacked keccak peggyID batch = .ok (batchPacked keccak peggyID batch).bytes
        ∧ EncodeTxBatchConfirm keccak peggyID batch
          = .returned (keccak ((batchPacked keccak peggyID batch).bytes.drop 4)))
      ∧ (∀ (valset : Valset) (e : String), valsetPacked keccak peggyID valset ≠ .error e)
      ∧ (∀ (batch : OutgoingTxBatch) (e : String),
          batchPacked keccak peggyID batch ≠ .error e) := by
  refine ⟨?_, ?_, ?_, ?_⟩
  · intro valset r hR _ _
    have hpk := valsetPacked_eq keccak peggyID valset r hR
    refine ⟨by rw [hpk]; rfl, ?_⟩
    rw [EncodeValsetConfirm_of_ok keccak peggyID valset _ hpk, hpk]
    rfl
  · intro batch hA hF
    have hA' : ∀ tx ∈ batch.Transactions, tx.Erc20Token.Amount ≠ none := fun tx htx => by
      obtain ⟨a, ha, _⟩ := hA tx htx
      simp [ha]
    have hF' : ∀ tx ∈ batch.Transactions, tx.Erc20Fee.Amount ≠ none := fun tx htx => by
      obtain ⟨a, ha, _⟩ := hF tx htx
      simp [ha]
    have hpk := batchPacked_eq keccak peggyID batch hA' hF'
    refine ⟨by rw [hpk]; rfl, ?_⟩
    rw [EncodeTxBatchConfirm_of_ok keccak peggyID batch _ hpk, hpk]
    rfl
  · intro valset e he
    rcases valsetPacked_cases keccak peggyID valset with ⟨x, hx⟩ | hp
    · rw [hx] at he
      cases he
    · rw [hp] at he
      cases he
  · intro batch e he
    rcases batchPacked_cases keccak peggyID batch with ⟨y, hy⟩ | hp
    · rw [hy] at he
      cases he
    · rw [hp] at he
      cases he

/-- The sample set and the sample batch are well formed and do not fail. -/
theorem builders_never_fail_on_well_formed_input_witness :
    EncodeValsetConfirm sampleKeccak samplePeggyID sampleValset
        = .returned (sampleKeccak
            ((valsetPacked sampleKeccak samplePeggyID sampleValset).bytes.drop 4))
      ∧ EncodeTxBatchConfirm sampleKeccak samplePeggyID sampleBatch
        = .returned (sampleKeccak
            ((batchPacked sampleKeccak samplePeggyID sampleBatch).bytes.drop 4)) :=
  ⟨((builders_never_fail_on_well_formed_input sampleKeccak samplePeggyID).1 sampleValset 9 rfl
      (by decide) (by norm_num)).2,
    ((builders_never_fail_on_well_formed_input sampleKeccak samplePeggyID).2.1 sampleBatch
      (by simp [sampleBatch]) (by simp [sampleBatch])).2⟩

/-! ## Metadata cache -/

theorem hexDigit_cases (n : Nat) (h : n < 16) :
    (48 ≤ hexDigit n ∧ hexDigit n ≤ 57) ∨ (97 ≤ hexDigit n ∧ hexDigit n ≤ 102) := by
  unfold hexDigit
  split <;> omega

/-- The normalised text of an address of `n` bytes is "0x" followed by `2 * n` lower-case
hexadecimal digits. -/
theorem normalizedAddress_form (tokenAddr : List Nat) :
    (normalizedAddress tokenAddr).take 2 = ascii "0x"
      ∧ (normalizedAddress tokenAddr).length = 2 + 2 * tokenAddr.length
      ∧ ∀ c ∈ (normalizedAddress tokenAddr).drop 2,
          (48 ≤ c ∧ c ≤ 57) ∨ (97 ≤ c ∧ c ≤ 102) := by
  have h2 : (ascii "0x").length = 2 := by decide
  have hlen : ∀ l : List Nat,
      ((l.map (fun b => [hexDigit (b / 16 % 16), hexDigit (b % 16)])).flatten).length
        = 2 * l.length := by
    intro l
    induction l with
    | nil => rfl
    | cons a l ih =>
      simp only [List.map_cons, List.flatten_cons, List.length_append, List.length_cons,
        List.length_nil, ih]
      omega
  refine ⟨?_, ?_, ?_⟩
  · rw [normalizedAddress, List.take_left' h2]
  · rw [normalizedAddress, List.length_append, h2, hlen]
  · intro c hc
    rw [normalizedAddress, List.drop_left' h2] at hc
    simp only [List.mem_flatten, List.mem_map] at hc
    obtain ⟨l, ⟨b, _, rfl⟩, hcl⟩ := hc
    simp only [List.mem_cons, List.mem_singleton, List.mem_nil_iff, or_false] at hcl
    rcases hcl with rfl | rfl
    · exact hexDigit_cases _ (Nat.mod_lt _ (by norm_num))
    · exact hexDigit_cases _ (Nat.mod_lt _ (by norm_num))

/-- C13: on an orchestrator whose cache has no entry yet for a 20-byte token address, with a
query client that returns the denomination d for it, two calls of the modelled ERC20ToDenom
both return (d, no error); the first issues one lookup, with the address as "0x" and 40
lower-case hexadecimal digits, and the second is served from the cache: it issues none and
leaves the cache as it is. -/
theorem cache_idempotence (client : List Nat → LookupReply) (cache : MetadataCache)
    (tokenAddr : List Nat) (d : String)
    (hlen : tokenAddr.length = 20)
    (hmiss : cache.get (normalizedAddress tokenAddr) = none)
    (hfound : client (normalizedAddress tokenAddr) = .found d) :
    (ERC20ToDenom client cache tokenAddr).1 = { denom := d, err := none }
      ∧ (ERC20ToDenom client (ERC20ToDenom client cache tokenAddr).2 tokenAddr).1
        = { denom := d, err := none }
      ∧ (ERC20ToDenom client (ERC20ToDenom client cache tokenAddr).2 tokenAddr).2.lookups
        = cache.lookups ++ [normalizedAddress tokenAddr]
      ∧ (ERC20ToDenom client (ERC20ToDenom client cache tokenAddr).2 tokenAddr).2
        = (ERC20ToDenom client cache tokenAddr).2
      ∧ (normalizedAddress tokenAddr).take 2 = ascii "0x"
      ∧ (normalizedAddress tokenAddr).length = 42
      ∧ (∀ c ∈ (normalizedAddress tokenAddr).drop 2,
          (48 ≤ c ∧ c ≤ 57) ∨ (97 ≤ c ∧ c ≤ 102)) := by
  obtain ⟨f1, f2, f3⟩ := normalizedAddress_form tokenAddr
  have h1 : ERC20ToDenom client cache tokenAddr
      = ({ denom := d, err := none },
          { entries := (normalizedAddress tokenAddr, d) :: cache.entries,
            lookups := cache.lookups ++ [normalizedAddress tokenAddr] }) := by
    simp only [ERC20ToDenom, hmiss, hfound]
  have hhit : MetadataCache.get
      { entries := (normalizedAddress tokenAddr, d) :: cache.entries,
        lookups := cache.lookups ++ [normalizedAddress tokenAddr] }
      (normalizedAddress tokenAddr) = some d := by
    simp [MetadataCache.get, List.find?]
  have h2 : ERC20ToDenom client (ERC20ToDenom client cache tokenAddr).2 tokenAddr
      = ({ denom := d, err := none },
          { entries := (normalizedAddress tokenAddr, d) :: cache.entries,
            lookups := cache.lookups ++ [normalizedAddress tokenAddr] }) := by
    rw [h1]
    simp only [ERC20ToDenom, hhit]
  refine ⟨by rw [h1], by rw [h2], by rw [h2], by rw [h2, h1], f1, by rw [f2, hlen], f3⟩

/-- The scenario of the test: the zero address on a fresh orchestrator, stub returning
"hilo". -/
theorem cache_idempotence_witness :
    (ERC20ToDenom hiloClient freshCache zeroAddress).1 = { denom := "hilo", err := none }
      ∧ (ERC20ToDenom hiloClient (ERC20ToDenom hiloClient freshCache zeroAddress).2
          zeroAddress).1 = { denom := "hilo", err := none }
      ∧ (ERC20ToDenom hiloClient (ERC20ToDenom hiloClient freshCache zeroAddress).2
          zeroAddress).2.lookups = [ascii "0x0000000000000000000000000000000000000000"] :=
  have h := cache_idempotence hiloClient freshCache zeroAddress "hilo"
    (by decide) (by decide) (by decide)
  ⟨h.1, h.2.1, h.2.2.1⟩

/-- C14: when the cache has no entry for the token address and the query client reports no
binding, the modelled ERC20ToDenom returns the empty denomination with the error "no denom
found for token" and stores nothing: the entries are unchanged, so the address is still a
miss and a binding added later is returned by the next call. -/
theorem not_found_is_not_cached (client : List Nat → LookupReply) (cache : MetadataCache)
    (tokenAddr : List Nat)
    (hmiss : cache.get (normalizedAddress tokenAddr) = none)
    (hnone : client (normalizedAddress tokenAddr) = .notFound) :
    (ERC20ToDenom client cache tokenAddr).1
        = { denom := "", err := some "no denom found for token" }
      ∧ (ERC20ToDenom client cache tokenAddr).2.entries = cache.entries
      ∧ (ERC20ToDenom client cache tokenAddr).2.get (normalizedAddress tokenAddr) = none
      ∧ (ERC20ToDenom client cache tokenAddr).2.lookups
        = cache.lookups ++ [normalizedAddress tokenAddr]
      ∧ (∀ (client' : List Nat → LookupReply) (d : String),
          client' (normalizedAddress tokenAddr) = .found d →
          (ERC20ToDenom client' (ERC20ToDenom client cache tokenAddr).2 tokenAddr).1
            = { denom := d, err := none }) := by
  have h1 : ERC20ToDenom client cache tokenAddr
      = ({ denom := "", err := some "no denom found for token" },
          { cache with lookups := cache.lookups ++ [normalizedAddress tokenAddr] }) := by
    simp only [ERC20ToDenom, hmiss, hnone]
  have hstill : MetadataCache.get
      { cache with lookups := cache.lookups ++ [normalizedAddress tokenAddr] }
      (normalizedAddress tokenAddr) = none := hmiss
  refine ⟨by rw [h1], by rw [h1], by rw [h1]; exact hstill, by rw [h1], ?_⟩
  intro client' d hd
  rw [h1]
  simp only [ERC20ToDenom, hstill, hd]

/-- The scenario of the test: the zero address on a fresh orchestrator, stub returning no
binding. -/
theorem not_found_is_not_cached_witness :
    (ERC20ToDenom emptyClient freshCache zeroAddress).1
        = { denom := "", err := some "no denom found for token" }
      ∧ (ERC20ToDenom emptyClient freshCache zeroAddress).2.entries = [] :=
  have h := not_found_is_not_cached emptyClient freshCache zeroAddress (by decide) rfl
  ⟨h.1, h.2.1⟩

/-! ## Layout of the packed arguments -/

theorem drop_take_mid (a b c : List Nat) (k m : Nat) (ha : a.length = k) (hb : b.length = m) :
    ((a ++ (b ++ c)).drop k).take m = b := by
  rw [List.drop_left' ha, List.take_left' hb]

/-- The nine parts of a byte string laid out as seven head words and two tails, each tail a
length word and an element section, can be read back at their offsets. -/
theorem layout_parts (n : Nat) (w0 w1 w2 w3 w4 w5 w6 l1 af l2 pf : List Nat)
    (h0 : w0.length = 32) (h1 : w1.length = 32) (h2 : w2.length = 32) (h3 : w3.length = 32)
    (h4 : w4.length = 32) (h5 : w5.length = 32) (h6 : w6.length = 32)
    (hl1 : l1.length = 32) (haf : af.length = 32 * n) (hl2 : l2.length = 32)
    (P : List Nat)
    (hP : P = w0 ++ w1 ++ w2 ++ w3 ++ w4 ++ w5 ++ w6 ++ (l1 ++ af) ++ (l2 ++ pf)) :
    wordAt P 0 = w0 ∧ wordAt P 1 = w1 ∧ wordAt P 2 = w2 ∧ wordAt P 3 = w3 ∧ wordAt P 4 = w4
      ∧ wordAt P 5 = w5 ∧ wordAt P 6 = w6
      ∧ (P.drop 224).take 32 = l1
      ∧ (P.drop (224 + 32)).take (32 * n) = af
      ∧ (P.drop (224 + 32 * (n + 1))).take 32 = l2
      ∧ P.drop (224 + 32 * (n + 1) + 32) = pf
      ∧ P.length = 224 + 32 * (n + 1) + 32 + pf.length := by
  subst hP
  simp only [wordAt, List.append_assoc]
  refine ⟨?_, ?_, ?_, ?_, ?_, ?_, ?_, ?_, ?_, ?_, ?_, ?_⟩
  · exact drop_take_mid [] w0 _ _ _ rfl h0
  · exact drop_take_mid w0 w1 _ _ _ (by rw [h0]) h1
  · have := drop_take_mid (w0 ++ w1) w2 (w3 ++ (w4 ++ (w5 ++ (w6 ++ (l1 ++ (af ++ (l2 ++ pf)))))))
      (32 * 2) 32 (by simp [h0, h1]) h2
    simpa only [List.append_assoc] using this
  · have := drop_take_mid (w0 ++ w1 ++ w2) w3 (w4 ++ (w5 ++ (w6 ++ (l1 ++ (af ++ (l2 ++ pf))))))
      (32 * 3) 32 (by simp [h0, h1, h2]) h3
    simpa only [List.append_assoc] using this
  · have := drop_take_mid (w0 ++ w1 ++ w2 ++ w3) w4 (w5 ++ (w6 ++ (l1 ++ (af ++ (l2 ++ pf)))))
      (32 * 4) 32 (by simp [h0, h1, h2, h3]) h4
    simpa only [List.append_assoc] using this
  · have := drop_take_mid (w0 ++ w1 ++ w2 ++ w3 ++ w4) w5 (w6 ++ (l1 ++ (af ++ (l2 ++ pf))))
      (32 * 5) 32 (by simp [h0, h1, h2, h3, h4]) h5
    simpa only [List.append_assoc] using this
  · have := drop_take_mid (w0 ++ w1 ++ w2 ++ w3 ++ w4 ++ w5) w6 (l1 ++ (af ++ (l2 ++ pf)))
      (32 * 6) 32 (by simp [h0, h1, h2, h3, h4, h5]) h6
    simpa only [List.append_assoc] using this
  · have := drop_take_mid (w0 ++ w1 ++ w2 ++ w3 ++ w4 ++ w5 ++ w6) l1 (af ++ (l2 ++ pf))
      224 32 (by simp [h0, h1, h2, h3, h4, h5, h6]) hl1
    simpa only [List.append_assoc] using this
  · have := drop_take_mid (w0 ++ w1 ++ w2 ++ w3 ++ w4 ++ w5 ++ w6 ++ l1) af (l2 ++ pf)
      (224 + 32) (32 * n) (by simp [h0, h1, h2, h3, h4, h5, h6, hl1]) haf
    simpa only [List.append_assoc] using this
  · have := drop_take_mid (w0 ++ w1 ++ w2 ++ w3 ++ w4 ++ w5 ++ w6 ++ l1 ++ af) l2 pf
      (224 + 32 * (n + 1)) 32 (by simp [h0, h1, h2, h3, h4, h5, h6, hl1, haf]; omega) hl2
    simpa only [List.append_assoc] using this
  · have := @List.drop_left' Nat (w0 ++ w1 ++ w2 ++ w3 ++ w4 ++ w5 ++ w6 ++ l1 ++ af ++ l2)
      pf (224 + 32 * (n + 1) + 32)
      (by simp [h0, h1, h2, h3, h4, h5, h6, hl1, haf, hl2]; omega)
    simpa only [List.append_assoc] using this
  · simp only [List.length_append, h0, h1, h2, h3, h4, h5, h6, hl1, haf, hl2]
    omega

theorem packNum_length (n : Nat) : (packNum n).length = 32 := U256Bytes_length _

theorem packNum_small (n : Nat) (h : n < 2 ^ 256) : packNum n = wordBE n :=
  U256Bytes_natCast n h

theorem LeftPadBytes_address_length (s : List Nat) :
    (LeftPadBytes (HexToAddress s) 32).length = 32 := by
  simp [LeftPadBytes_address, HexToAddress_length]

theorem address_words_length {α : Type} (f : α → List Nat) (l : List α) :
    ((l.map (fun m => LeftPadBytes (HexToAddress (f m)) 32)).flatten).length = 32 * l.length :=
  length_flatten_words _ _ (fun _ _ => LeftPadBytes_address_length _)

theorem uint_words_length {α : Type} (f : α → Int) (l : List α) :
    ((l.map (fun m => U256Bytes (f m))).flatten).length = 32 * l.length :=
  length_flatten_words _ _ (fun _ _ => U256Bytes_length _)

/-- The bytes hashed by the checkpoint builder, split into their nine parts. -/
theorem valset_payload_parts (keccak : List Nat → Hash) (peggyID : Hash) (valset : Valset)
    (r : Int) (hR : valset.RewardAmount = some r) :
    (valsetPacked keccak peggyID valset).bytes.drop 4
      = peggyID.bytes ++ checkpoint ++ U256Bytes (int64 valset.Nonce) ++ packNum 224
        ++ packNum (224 + (32 + 32 * valset.Members.length)) ++ U256Bytes r
        ++ LeftPadBytes (HexToAddress valset.RewardToken) 32
        ++ (packNum valset.Members.length
            ++ (valset.Members.map
                  (fun m => LeftPadBytes (HexToAddress m.EthereumAddress) 32)).flatten)
        ++ (packNum valset.Members.length
            ++ (valset.Members.map (fun m => U256Bytes (int64 m.Power))).flatten) := by
  rw [valsetPacked_eq keccak peggyID valset r hR]
  simp only [PackResult.bytes, drop_methodID]

/-- C15: in the bytes hashed by EncodeValsetConfirm for a set of n members, head word 3
(validators) holds the offset 224 and head word 4 (powers) the offset 224 + 32 (n + 1); at
offset 224 stands the length word n followed by the n address words, at offset
224 + 32 (n + 1) the length word n followed by the n power words, which end the byte string:
the two tails follow the head in argument order without gap or overlap. -/
theorem checkpoint_head_tail_layout (keccak : List Nat → Hash) (peggyID : Hash)
    (valset : Valset) (r : Int) (hR : valset.RewardAmount = some r)
    (hlen : valset.Members.length < 2 ^ 63) :
    wordAt ((valsetPacked keccak peggyID valset).bytes.drop 4) 3 = wordBE 224
      ∧ wordAt ((valsetPacked keccak peggyID valset).bytes.drop 4) 4
        = wordBE (224 + 32 * (valset.Members.length + 1))
      ∧ (((valsetPacked keccak peggyID valset).bytes.drop 4).drop 224).take 32
        = wordBE valset.Members.length
      ∧ (((valsetPacked keccak peggyID valset).bytes.drop 4).drop (224 + 32)).take
          (32 * valset.Members.length)
        = (valset.Members.map
            (fun m => List.replicate 12 0 ++ HexToAddress m.EthereumAddress)).flatten
      ∧ (((valsetPacked keccak peggyID valset).bytes.drop 4).drop
          (224 + 32 * (valset.Members.length + 1))).take 32 = wordBE valset.Members.length
      ∧ ((valsetPacked keccak peggyID valset).bytes.drop 4).drop
          (224 + 32 * (valset.Members.length + 1) + 32)
        = (valset.Members.map (fun m => U256Bytes (int64 m.Power))).flatten
      ∧ ((valset.Members.map (fun m => U256Bytes (int64 m.Power))).flatten).length
        = 32 * valset.Members.length
      ∧ ((valsetPacked keccak peggyID valset).bytes.drop 4).length
        = 224 + 32 * (valset.Members.length + 1) + 32 * (valset.Members.length + 1) := by
  have hparts := valset_payload_parts keccak peggyID valset r hR
  have hpf := uint_words_length (fun m : BridgeValidator => int64 m.Power) valset.Members
  obtain ⟨-, -, -, p3, p4, -, -, p7, p8, p9, p10, p11⟩ :=
    layout_parts valset.Members.length _ _ _ _ _ _ _ _ _ _ _
      peggyID.len checkpoint_length (U256Bytes_length _) (packNum_length _) (packNum_length _)
      (U256Bytes_length _) (LeftPadBytes_address_length _) (packNum_length _)
      (address_words_length (fun m : BridgeValidator => m.EthereumAddress) valset.Members)
      (packNum_length _) _ hparts
  have e4 : 224 + (32 + 32 * valset.Members.length) = 224 + 32 * (valset.Members.length + 1) := by
    omega
  rw [packNum_small 224 (by norm_num)] at p3
  rw [e4, packNum_small _ (by omega)] at p4
  rw [packNum_small _ (by omega)] at p7 p9
  have e8 : (valset.Members.map
      (fun m => LeftPadBytes (HexToAddress m.EthereumAddress) 32))
      = valset.Members.map (fun m => List.replicate 12 0 ++ HexToAddress m.EthereumAddress) :=
    List.map_congr_left (fun m _ => LeftPadBytes_address _)
  rw [e8] at p8
  refine ⟨p3, p4, p7, p8, p9, p10, hpf, ?_⟩
  rw [p11, hpf]
  omega

/-- The layout of the two-member sample set: offsets 224 and 320. -/
theorem checkpoint_head_tail_layout_witness :
    wordAt ((valsetPacked sampleKeccak samplePeggyID sampleValset).bytes.drop 4) 3 = wordBE 224
      ∧ wordAt ((valsetPacked sampleKeccak samplePeggyID sampleValset).bytes.drop 4) 4
        = wordBE 320 :=
  have h := checkpoint_head_tail_layout sampleKeccak samplePeggyID sampleValset 9 rfl
    (by decide)
  ⟨h.1, h.2.1⟩

/-- C18: a successfully packed checkpoint call for n members is 4 + 32 (9 + 2 n) bytes long
and a successfully packed batch call for n transactions 4 + 32 (11 + 3 n) bytes, n = 0
included; so the call has at least 4 bytes and what is hashed after dropping them is a whole
number of 32-byte words. -/
theorem packed_call_lengths (keccak : List Nat → Hash) (peggyID : Hash) :
    (∀ (valset : Valset) (x : List Nat), valsetPacked keccak peggyID valset = .ok x →
        x.length = 4 + 32 * (9 + 2 * valset.Members.length)
        ∧ 4 ≤ x.length
        ∧ (x.drop 4).length = 32 * (9 + 2 * valset.Members.length)
        ∧ (x.drop 4).length % 32 = 0)
      ∧ (∀ (batch : OutgoingTxBatch) (y : List Nat), batchPacked keccak peggyID batch = .ok y →
        y.length = 4 + 32 * (11 + 3 * batch.Transactions.length)
        ∧ 4 ≤ y.length
        ∧ (y.drop 4).length = 32 * (11 + 3 * batch.Transactions.length)
        ∧ (y.drop 4).length % 32 = 0) := by
  constructor
  · intro valset x hx
    obtain ⟨r, hR⟩ := valsetPacked_ok_present keccak peggyID valset x hx
    rw [valsetPacked_eq keccak peggyID valset r hR] at hx
    injection hx with hx
    have hl : x.length = 4 + 32 * (9 + 2 * valset.Members.length) := by
      rw [← hx]
      simp only [List.length_append, methodID_length, peggyID.len, checkpoint_length,
        U256Bytes_length, packNum_length, LeftPadBytes_address_length,
        address_words_length (fun m : BridgeValidator => m.EthereumAddress),
        uint_words_length (fun m : BridgeValidator => int64 m.Power)]
      omega
    refine ⟨hl, by omega, ?_, ?_⟩
    · rw [List.length_drop, hl]
      omega
    · rw [List.length_drop, hl]
      omega
  · intro batch y hy
    obtain ⟨hA, hF⟩ := batchPacked_ok_present keccak peggyID batch y hy
    rw [batchPacked_eq keccak peggyID batch hA hF] at hy
    injection hy with hy
    have hl : y.length = 4 + 32 * (11 + 3 * batch.Transactions.length) := by
      rw [← hy]
      simp only [List.length_append, methodID_length, peggyID.len, batchMethodName_length,
        U256Bytes_length, packNum_length, LeftPadBytes_address_length,
        address_words_length (fun tx : OutgoingTransferTx => tx.DestAddress),
        uint_words_length (fun tx : OutgoingTransferTx => tx.Erc20Token.Amount.getD 0),
        uint_words_length (fun tx : OutgoingTransferTx => tx.Erc20Fee.Amount.getD 0)]
      omega
    refine ⟨hl, by omega, ?_, ?_⟩
    · rw [List.length_drop, hl]
      omega
    · rw [List.length_drop, hl]
      omega

set_option maxRecDepth 100000 in
/-- The sample calls: 420 bytes for two members, 452 bytes for one transaction. -/
theorem packed_call_lengths_witness :
    (valsetPacked sampleKeccak samplePeggyID sampleValset).bytes.length = 420
      ∧ (batchPacked sampleKeccak samplePeggyID sampleBatch).bytes.length = 452 :=
  ⟨((packed_call_lengths sampleKeccak samplePeggyID).1 sampleValset
      (valsetPacked sampleKeccak samplePeggyID sampleValset).bytes (by decide)).1,
    ((packed_call_lengths sampleKeccak samplePeggyID).2 sampleBatch
      (batchPacked sampleKeccak samplePeggyID sampleBatch).bytes (by decide)).1⟩

/-! ## Injectivity of the checkpoint encoding -/

theorem Hash_ext (a b : Hash) (h : a.bytes = b.bytes) : a = b := by
  cases a
  cases b
  cases h
  rfl

theorem U256Bytes_inj_of_range (r r' : Int) (h0 : 0 ≤ r) (h1 : r < 2 ^ 256) (h0' : 0 ≤ r')
    (h1' : r' < 2 ^ 256) (h : U256Bytes r = U256Bytes r') : r = r' := by
  rw [U256Bytes_of_range r h0 h1, U256Bytes_of_range r' h0' h1'] at h
  have := wordBE_inj _ _ (by omega) (by omega) h
  omega

/-- C19: on in-range inputs the checkpoint encoding is injective. If two inputs (peggyID,
validator set) with nonces and powers below 2^63 and reward amounts in [0, 2^256) give the
same bytes to hash, then they have the same peggyID, the same nonce, the same number of
members, the same parsed address and power at every position, the same reward amount and the
same parsed reward token. -/
theorem checkpoint_payload_injective (keccak : List Nat → Hash) (peggyID peggyID' : Hash)
    (valset valset' : Valset) (r r' : Int)
    (hR : valset.RewardAmount = some r) (hR' : valset'.RewardAmount = some r')
    (hN : valset.Nonce < 2 ^ 63) (hN' : valset'.Nonce < 2 ^ 63)
    (hP : ∀ m ∈ valset.Members, m.Power < 2 ^ 63)
    (hP' : ∀ m ∈ valset'.Members, m.Power < 2 ^ 63)
    (h0 : 0 ≤ r) (h1 : r < 2 ^ 256) (h0' : 0 ≤ r') (h1' : r' < 2 ^ 256)
    (heq : (valsetPacked keccak peggyID valset).bytes.drop 4
      = (valsetPacked keccak peggyID' valset').bytes.drop 4) :
    peggyID = peggyID' ∧ valset.Nonce = valset'.Nonce
      ∧ valset.Members.length = valset'.Members.length
      ∧ valset.parsedMembers = valset'.parsedMembers
      ∧ r = r'
      ∧ HexToAddress valset.RewardToken = HexToAddress valset'.RewardToken := by
  have hparts := valset_payload_parts keccak peggyID valset r hR
  have hparts' := valset_payload_parts keccak peggyID' valset' r' hR'
  have hpf := uint_words_length (fun m : BridgeValidator => int64 m.Power) valset.Members
  have hpf' := uint_words_length (fun m : BridgeValidator => int64 m.Power) valset'.Members
  obtain ⟨a0, -, a2, -, -, a5, a6, -, a8, -, a10, a11⟩ :=
    layout_parts valset.Members.length _ _ _ _ _ _ _ _ _ _ _
      peggyID.len checkpoint_length (U256Bytes_length _) (packNum_length _) (packNum_length _)
      (U256Bytes_length _) (LeftPadBytes_address_length _) (packNum_length _)
      (address_words_length (fun m : BridgeValidator => m.EthereumAddress) valset.Members)
      (packNum_length _) _ hparts
  obtain ⟨b0, -, b2, -, -, b5, b6, -, b8, -, b10, b11⟩ :=
    layout_parts valset'.Members.length _ _ _ _ _ _ _ _ _ _ _
      peggyID'.len checkpoint_length (U256Bytes_length _) (packNum_length _) (packNum_length _)
      (U256Bytes_length _) (LeftPadBytes_address_length _) (packNum_length _)
      (address_words_length (fun m : BridgeValidator => m.EthereumAddress) valset'.Members)
      (packNum_length _) _ hparts'
  have hn : valset.Members.length = valset'.Members.length := by
    rw [heq, b11, hpf'] at a11
    rw [hpf] at a11
    omega
  rw [heq] at a0 a2 a5 a6 a8 a10
  rw [hn] at a8 a10
  have e0 := a0.symm.trans b0
  have e2 := a2.symm.trans b2
  have e5 := a5.symm.trans b5
  have e6 := a6.symm.trans b6
  have e8 := a8.symm.trans b8
  have e10 := a10.symm.trans b10
  have hPw : ∀ m ∈ valset.Members, m.Power < 2 ^ 64 := fun m hm => by
    have := hP m hm
    omega
  have hPw' : ∀ m ∈ valset'.Members, m.Power < 2 ^ 64 := fun m hm => by
    have := hP' m hm
    omega
  have ha := flatten_words_inj _ _
    (by simp [LeftPadBytes, HexToAddress_length]) (by simp [LeftPadBytes, HexToAddress_length]) e8
  have hp := flatten_words_inj _ _
    (by simp [U256Bytes_length]) (by simp [U256Bytes_length]) e10
  refine ⟨Hash_ext _ _ e0, ?_, hn, parsed_eq_of_words_eq _ _ hPw hPw' ha hp,
    U256Bytes_inj_of_range r r' h0 h1 h0' h1' e5, ?_⟩
  · exact U256Bytes_int64_inj _ _ (by omega) (by omega) e2
  · rw [LeftPadBytes_address, LeftPadBytes_address] at e6
    exact List.append_cancel_left e6

set_option maxRecDepth 100000 in
/-- Injectivity applied to the sample set and its copy with the address texts retyped,
which parse to the same addresses. -/
theorem checkpoint_payload_injective_witness :
    sampleValset.parsedMembers = sampleValsetRetyped.parsedMembers :=
  (checkpoint_payload_injective sampleKeccak samplePeggyID samplePeggyID sampleValset
    sampleValsetRetyped 9 9 rfl rfl (by decide) (by decide) (by decide) (by decide)
    (by decide) (by norm_num) (by decide) (by norm_num) (by decide)).2.2.2.1

/-! ## The function name and the handling of a packing error -/

/-- Packing through a description with the single method `m`, called by its non-empty name,
packs the arguments and puts the selector of `m` in front. -/
theorem Pack_single (keccak : List Nat → Hash) (m : Method) (args : List GoValue)
    (hname : m.Name ≠ "") :
    Pack keccak [m] m.Name args
      = match Arguments.Pack m.Inputs args with
        | .ok arguments => .ok (m.ID keccak ++ arguments)
        | .error e => .error e
        | .panic => .panic := by
  simp [Pack, hname, List.find?]

theorem valsetAfterPack_single (keccak : List Nat → Hash) (m : Method) (args : List GoValue)
    (hname : m.Name ≠ "") :
    valsetAfterPack keccak (Pack keccak [m] m.Name args)
      = match Arguments.Pack m.Inputs args with
        | .ok arguments => .returned (keccak arguments)
        | .error e => .panicked ("error packing checkpoint: " ++ e)
        | .panic => .panicked "runtime error" := by
  rw [Pack_single keccak m args hname]
  cases Arguments.Pack m.Inputs args with
  | ok a => simp only [valsetAfterPack, drop_methodID]
  | error e => rfl
  | panic => rfl

theorem batchAfterPack_single (keccak : List Nat → Hash) (m : Method) (args : List GoValue)
    (hname : m.Name ≠ "") :
    batchAfterPack keccak (Pack keccak [m] m.Name args)
      = match Arguments.Pack m.Inputs args with
        | .ok arguments => .returned (keccak arguments)
        | .error _ => .returned Hash.zero
        | .panic => .panicked "runtime error" := by
  rw [Pack_single keccak m args hname]
  cases Arguments.Pack m.Inputs args with
  | ok a => simp only [batchAfterPack, drop_methodID, BytesToHash_bytes]
  | error e => rfl
  | panic => rfl

theorem EncodeValsetConfirm_afterPack (keccak : List Nat → Hash) (peggyID : Hash)
    (valset : Valset) :
    EncodeValsetConfirm keccak peggyID valset
      = if valset.RewardAmount = none then
          .panicked "invalid reward amount passed in valset GetCheckpoint!"
        else valsetAfterPack keccak (valsetPacked keccak peggyID valset) := by
  cases hR : valset.RewardAmount with
  | none => simp only [EncodeValsetConfirm_unfold, hR, if_true]
  | some r =>
    simp only [EncodeValsetConfirm_unfold, hR, valsetAfterPack, reduceCtorEq, if_false]

theorem EncodeTxBatchConfirm_afterPack (keccak : List Nat → Hash) (peggyID : Hash)
    (batch : OutgoingTxBatch) :
    EncodeTxBatchConfirm keccak peggyID batch
      = batchAfterPack keccak (batchPacked keccak peggyID batch) := by
  simp only [EncodeTxBatchConfirm_unfold, batchAfterPack]

/-- C16: with any non-empty name written in place of "checkpoint" (resp. "transactionBatch")
both in the interface description and in the Pack call, EncodeValsetConfirm (resp.
EncodeTxBatchConfirm) has the same outcome for every input: the name only determines the four
selector bytes, which are dropped before hashing. (The empty name is not a function name: it
makes Pack address the constructor.) -/
theorem function_name_has_no_impact (name : String) (hname : name ≠ "")
    (keccak : List Nat → Hash) (peggyID : Hash) :
    (∀ valset : Valset, EncodeValsetConfirmNamed name keccak peggyID valset
        = EncodeValsetConfirm keccak peggyID valset)
      ∧ (∀ batch : OutgoingTxBatch, EncodeTxBatchConfirmNamed name keccak peggyID batch
        = EncodeTxBatchConfirm keccak peggyID batch) := by
  constructor
  · intro valset
    rw [EncodeValsetConfirm_afterPack]
    cases hR : valset.RewardAmount with
    | none => simp only [EncodeValsetConfirmNamed, hR, if_true]
    | some r =>
      simp only [EncodeValsetConfirmNamed, hR, reduceCtorEq, if_false, valsetPacked,
        ValsetCheckpointABI]
      have h1 := valsetAfterPack_single keccak { checkpointMethod with Name := name }
        (valsetArgs peggyID valset (some r)) hname
      have h2 := valsetAfterPack_single keccak checkpointMethod
        (valsetArgs peggyID valset (some r)) (by decide)
      exact h1.trans h2.symm
  · intro batch
    rw [EncodeTxBatchConfirm_afterPack]
    simp only [EncodeTxBatchConfirmNamed, batchPacked, OutgoingBatchTxConfirmABI]
    have h1 := batchAfterPack_single keccak { transactionBatchMethod with Name := name }
      (batchArgs peggyID batch) hname
    have h2 := batchAfterPack_single keccak transactionBatchMethod
      (batchArgs peggyID batch) (by decide)
    exact h1.trans h2.symm

/-- The builders under the name "submitBatch" agree with the builders of the source on the
samples. -/
theorem function_name_has_no_impact_witness :
    EncodeValsetConfirmNamed "submitBatch" sampleKeccak samplePeggyID sampleValset
        = EncodeValsetConfirm sampleKeccak samplePeggyID sampleValset
      ∧ EncodeTxBatchConfirmNamed "submitBatch" sampleKeccak samplePeggyID sampleBatch
        = EncodeTxBatchConfirm sampleKeccak samplePeggyID sampleBatch :=
  have h := function_name_has_no_impact "submitBatch" (by decide) sampleKeccak samplePeggyID
  ⟨h.1 sampleValset, h.2 sampleBatch⟩

/-- With the empty name the Pack call fails with a count error, whatever the arguments. -/
theorem Pack_empty_name (keccak : List Nat → Hash) (abi : List Method) (a : GoValue)
    (args : List GoValue) :
    Pack keccak abi "" (a :: args)
      = .error ("argument count mismatch: got " ++ toString (args.length + 1) ++ " for "
          ++ toString 0) := by
  simp [Pack, Arguments.Pack]

/-- C17: whenever the packing call returns an error, whatever the packer, EncodeTxBatchConfirm
returns the all-zero 32-byte hash as its ordinary value, while EncodeValsetConfirm (past its
nil check) panics with the packing error and returns nothing. The builders of the source are
these builders with the packer Pack. -/
theorem pack_error_handling_differs
    (pack : (List Nat → Hash) → List Method → String → List GoValue → PackResult)
    (keccak : List Nat → Hash) (peggyID : Hash) (e : String) :
    (∀ batch : OutgoingTxBatch,
        pack keccak OutgoingBatchTxConfirmABI "transactionBatch" (batchArgs peggyID batch)
          = .error e →
        EncodeTxBatchConfirmWith pack keccak peggyID batch = .returned Hash.zero)
      ∧ (∀ (valset : Valset) (r : Int), valset.RewardAmount = some r →
        pack keccak ValsetCheckpointABI "checkpoint" (valsetArgs peggyID valset (some r))
          = .error e →
        EncodeValsetConfirmWith pack keccak peggyID valset
            = .panicked ("error packing checkpoint: " ++ e)
          ∧ ∀ h : Hash, EncodeValsetConfirmWith pack keccak peggyID valset ≠ .returned h)
      ∧ Hash.zero.bytes = List.replicate 32 0
      ∧ (∀ batch : OutgoingTxBatch, EncodeTxBatchConfirm keccak peggyID batch
          = EncodeTxBatchConfirmWith Pack keccak peggyID batch)
      ∧ (∀ valset : Valset, EncodeValsetConfirm keccak peggyID valset
          = EncodeValsetConfirmWith Pack keccak peggyID valset) := by
  refine ⟨?_, ?_, rfl, fun _ => rfl, fun _ => rfl⟩
  · intro batch hpack
    simp only [EncodeTxBatchConfirmWith, hpack, batchAfterPack]
  · intro valset r hR hpack
    have hv : EncodeValsetConfirmWith pack keccak peggyID valset
        = .panicked ("error packing checkpoint: " ++ e) := by
      simp only [EncodeValsetConfirmWith, hR, hpack, valsetAfterPack]
    refine ⟨hv, ?_⟩
    intro h hh
    rw [hv] at hh
    cases hh

set_option maxRecDepth 100000 in
/-- The packer that checks the sign returns an error for a reward amount of -1 and for a
transaction amount of -1: the batch builder then returns the zero hash, the checkpoint
builder panics. -/
theorem pack_error_handling_differs_witness :
    EncodeTxBatchConfirmWith PackStrict sampleKeccak samplePeggyID
        (sampleBatchWithAmount (some (-1))) = .returned Hash.zero
      ∧ EncodeValsetConfirmWith PackStrict sampleKeccak samplePeggyID
          (sampleValsetWithReward (some (-1)))
        = .panicked ("error packing checkpoint: " ++ errInvalidSign) :=
  have h := pack_error_handling_differs PackStrict sampleKeccak samplePeggyID errInvalidSign
  ⟨h.1 (sampleBatchWithAmount (some (-1))) (by decide),
    (h.2.1 (sampleValsetWithReward (some (-1))) (-1) rfl (by decide)).1⟩

/-! ## Address texts -/

theorem fromHexChar_lowerHex (c : Nat) : fromHexChar (lowerHex c) = fromHexChar c := by
  unfold lowerHex
  by_cases h : 65 ≤ c ∧ c ≤ 70
  · have h1 : ¬ (48 ≤ c ∧ c ≤ 57) := by omega
    have h2 : ¬ (97 ≤ c ∧ c ≤ 102) := by omega
    have h3 : ¬ (48 ≤ c + 32 ∧ c + 32 ≤ 57) := by omega
    have h4 : 97 ≤ c + 32 ∧ c + 32 ≤ 102 := by omega
    have h5 : c + 32 - 97 + 10 = c - 65 + 10 := by omega
    simp only [h, if_true, fromHexChar, h1, h2, h3, h4, if_false, and_self, h5]
  · simp only [h, if_false]

theorem lowerHex_beq (c k : Nat) (hk : (k < 65 ∨ 70 < k) ∧ (k < 97 ∨ 102 < k)) :
    (lowerHex c == k) = (c == k) := by
  unfold lowerHex
  by_cases h : 65 ≤ c ∧ c ≤ 70
  · have h1 : c + 32 ≠ k := by omega
    have h2 : c ≠ k := by omega
    simp [h, h1, h2]
  · simp only [h, if_false]

theorem has0xPrefix_map_lowerHex (s : List Nat) :
    has0xPrefix (s.map lowerHex) = has0xPrefix s := by
  match s with
  | [] => rfl
  | [_] => rfl
  | c0 :: c1 :: rest =>
    simp only [List.map_cons, has0xPrefix, lowerHex_beq c0 48 (by omega),
      lowerHex_beq c1 120 (by omega), lowerHex_beq c1 88 (by omega)]

theorem Hex2Bytes_map_lowerHex (s : List Nat) :
    Hex2Bytes (s.map lowerHex) = Hex2Bytes s
      ∧ ∀ c, Hex2Bytes ((c :: s).map lowerHex) = Hex2Bytes (c :: s) := by
  induction s with
  | nil => exact ⟨rfl, fun c => rfl⟩
  | cons a s ih =>
    refine ⟨ih.2 a, ?_⟩
    intro c
    simp only [List.map_cons, Hex2Bytes, fromHexChar_lowerHex, ih.1]

/-- The padding step of `FromHex` followed by the decoding, on a text without "0x". -/
theorem decode_map_lowerHex (s : List Nat) :
    Hex2Bytes (if ((s.map lowerHex).length % 2 == 1) = true then 48 :: s.map lowerHex
        else s.map lowerHex)
      = Hex2Bytes (if (s.length % 2 == 1) = true then 48 :: s else s) := by
  have h48 : lowerHex 48 = 48 := by decide
  rw [List.length_map]
  by_cases hodd : (s.length % 2 == 1) = true
  · rw [if_pos hodd, if_pos hodd]
    have := (Hex2Bytes_map_lowerHex s).2 48
    simpa only [List.map_cons, h48] using this
  · rw [if_neg hodd, if_neg hodd]
    exact (Hex2Bytes_map_lowerHex s).1

theorem FromHex_map_lowerHex (s : List Nat) : FromHex (s.map lowerHex) = FromHex s := by
  unfold FromHex
  simp only [has0xPrefix_map_lowerHex]
  cases hp : has0xPrefix s with
  | true =>
    simp only [if_true]
    rw [← List.map_drop]
    exact decode_map_lowerHex (s.drop 2)
  | false =>
    simp only [Bool.false_eq_true, if_false]
    exact decode_map_lowerHex s

theorem FromHex_stripPrefix (s : List Nat) (h : has0xPrefix (stripPrefix s) = false) :
    FromHex (stripPrefix s) = FromHex s := by
  cases hp : has0xPrefix s with
  | true =>
    have hs : stripPrefix s = s.drop 2 := by simp only [stripPrefix, hp, if_true]
    rw [hs] at h ⊢
    simp only [FromHex, h, hp, if_true, Bool.false_eq_true, if_false]
  | false =>
    simp only [stripPrefix, hp, Bool.false_eq_true, if_false]

/-- Address texts that are the same in the sense of `sameAddressText` parse to the same
address. -/
theorem HexToAddress_sameAddressText (s t : List Nat) (h : sameAddressText s t = true) :
    HexToAddress s = HexToAddress t := by
  have hF : FromHex s = FromHex t := by
    simp only [sameAddressText, Bool.or_eq_true, Bool.and_eq_true, beq_iff_eq,
      Bool.not_eq_true'] at h
    rcases h with h | ⟨⟨h, hs⟩, ht⟩
    · rw [← FromHex_map_lowerHex s, h, FromHex_map_lowerHex]
    · rw [← FromHex_stripPrefix s hs, ← FromHex_stripPrefix t ht,
        ← FromHex_map_lowerHex (stripPrefix s), h, FromHex_map_lowerHex]
  simp only [HexToAddress, hF]

theorem members_same_parse (l : List BridgeValidator) : ∀ l' : List BridgeValidator,
    allSame sameMember l l' = true →
    l.map (fun m => HexToAddress m.EthereumAddress)
        = l'.map (fun m => HexToAddress m.EthereumAddress)
      ∧ l.map (fun m => some (int64 m.Power)) = l'.map (fun m => some (int64 m.Power)) := by
  induction l with
  | nil =>
    intro l' h
    cases l' with
    | nil => exact ⟨rfl, rfl⟩
    | cons b l' => simp [allSame] at h
  | cons a l ih =>
    intro l' h
    cases l' with
    | nil => simp [allSame] at h
    | cons b l' =>
      simp only [allSame, sameMember, Bool.and_eq_true, beq_iff_eq] at h
      obtain ⟨⟨hp, ha⟩, hrest⟩ := h
      obtain ⟨i1, i2⟩ := ih l' hrest
      simp only [List.map_cons, HexToAddress_sameAddressText _ _ ha, hp, i1, i2, and_self]

theorem transfers_same_parse (l : List OutgoingTransferTx) : ∀ l' : List OutgoingTransferTx,
    allSame sameTransfer l l' = true →
    l.map (fun tx => tx.Erc20Token.Amount) = l'.map (fun tx => tx.Erc20Token.Amount)
      ∧ l.map (fun tx => HexToAddress tx.DestAddress)
        = l'.map (fun tx => HexToAddress tx.DestAddress)
      ∧ l.map (fun tx => tx.Erc20Fee.Amount) = l'.map (fun tx => tx.Erc20Fee.Amount) := by
  induction l with
  | nil =>
    intro l' h
    cases l' with
    | nil => exact ⟨rfl, rfl, rfl⟩
    | cons b l' => simp [allSame] at h
  | cons a l ih =>
    intro l' h
    cases l' with
    | nil => simp [allSame] at h
    | cons b l' =>
      simp only [allSame, sameTransfer, Bool.and_eq_true, beq_iff_eq] at h
      obtain ⟨⟨⟨hamt, hfee⟩, ha⟩, hrest⟩ := h
      obtain ⟨i1, i2, i3⟩ := ih l' hrest
      simp only [List.map_cons, HexToAddress_sameAddressText _ _ ha, hamt, hfee, i1, i2, i3,
        and_self]

/-- C20: two validator sets with the same nonce and reward amount, whose members are
position by position the same but for the letter case of the address text or the presence of
"0x" in front of it, and whose reward token texts are the same in that sense, get the same
outcome from EncodeValsetConfirm; likewise two batches that differ only so in destination and
token contract texts get the same outcome from EncodeTxBatchConfirm. -/
theorem commitment_depends_on_parsed_addresses (keccak : List Nat → Hash) (peggyID : Hash) :
    (∀ valset valset' : Valset, valset.Nonce = valset'.Nonce →
        valset.RewardAmount = valset'.RewardAmount →
        allSame sameMember valset.Members valset'.Members = true →
        sameAddressText valset.RewardToken valset'.RewardToken = true →
        EncodeValsetConfirm keccak peggyID valset = EncodeValsetConfirm keccak peggyID valset')
      ∧ (∀ batch batch' : OutgoingTxBatch, batch.BatchNonce = batch'.BatchNonce →
        batch.BatchTimeout = batch'.BatchTimeout →
        allSame sameTransfer batch.Transactions batch'.Transactions = true →
        sameAddressText batch.TokenContract batch'.TokenContract = true →
        EncodeTxBatchConfirm keccak peggyID batch = EncodeTxBatchConfirm keccak peggyID batch') := by
  constructor
  · intro valset valset' hN hR hM hT
    obtain ⟨m1, m2⟩ := members_same_parse _ _ hM
    simp only [EncodeValsetConfirm_unfold, valsetPacked, valsetArgs, hN, hR, m1, m2,
      HexToAddress_sameAddressText _ _ hT]
  · intro batch batch' hN hT hX hC
    obtain ⟨t1, t2, t3⟩ := transfers_same_parse _ _ hX
    simp only [EncodeTxBatchConfirm_unfold, batchPacked, batchArgs, hN, hT, t1, t2, t3,
      HexToAddress_sameAddressText _ _ hC]

set_option maxRecDepth 100000 in
/-- The sample set and batch against their copies with upper-case texts without "0x". -/
theorem commitment_depends_on_parsed_addresses_witness :
    EncodeValsetConfirm sampleKeccak samplePeggyID sampleValset
        = EncodeValsetConfirm sampleKeccak samplePeggyID sampleValsetRetyped
      ∧ EncodeTxBatchConfirm sampleKeccak samplePeggyID sampleBatch
        = EncodeTxBatchConfirm sampleKeccak samplePeggyID sampleBatchRetyped :=
  have h := commitment_depends_on_parsed_addresses sampleKeccak samplePeggyID
  ⟨h.1 sampleValset sampleValsetRetyped rfl rfl (by decide) (by decide),
    h.2 sampleBatch sampleBatchRetyped rfl rfl (by decide) (by decide)⟩

end Peggy
